import Mathlib

/-!
Verification development for the `claude-agent-ui` repository.

The embedding below translates the server core of the repository
(`src/server/index.ts` session-reducer module, plus `src/server/sse.ts`)
into Lean:

* JavaScript objects with optional fields become structures with `Option`
  fields; the TS `x ?? y` / `x || y` idioms become `Option.getD` with the
  relevant truthiness checks spelled out.
* The module-level mutable variables of the session module become the
  fields of `AgentState`; every handler function becomes a pure state
  transformer `AgentState → ... → AgentState`.
* `broadcast(event, payload)` is modelled by appending a `Broadcast`
  value to an instrumentation log carried in the state, and
  `querySession.interrupt()` by an instrumentation counter.
* JS `Map` objects become association lists with a prepend-shadowing
  `setKey` (lookup finds the most recent binding, like `Map.set`).
* `Date.now()` becomes an explicit `now : Nat` argument; elapsed-time
  subtractions are computed in `Int` so that the sign is meaningful.
* The external JSON parsers (`JSON.parse` on the success/failure level and
  the renderer's `parsePartialJson`, whose source is not part of the server
  core) are passed in as opaque function parameters bundled in
  `JsonParsers`; parsed values are represented by their serialized form.
-/

namespace ClaudeAgentUI

/-! ## Generic list and association-list helpers -/

/-- Lookup in an association list, first binding wins (models `Map.get`
on the prepend-shadowing representation used below). -/
def lookupKey {α β : Type} [DecidableEq α] : List (α × β) → α → Option β
  | [], _ => none
  | (k, v) :: rest, a => if a = k then some v else lookupKey rest a

/-- Models `Map.set`: a new binding shadows any previous one. -/
def setKey {α β : Type} (m : List (α × β)) (k : α) (v : β) : List (α × β) :=
  (k, v) :: m

/-- Models `Map.delete`: all bindings for the key disappear. -/
def eraseKey {α β : Type} [DecidableEq α] (m : List (α × β)) (k : α) : List (α × β) :=
  m.filter (fun p => p.1 ≠ k)

/-- Update the first element satisfying the predicate, leave the rest
unchanged (models `array.find(...)` followed by in-place mutation). -/
def updateFirstWhere {α : Type} (p : α → Bool) (f : α → α) : List α → List α
  | [] => []
  | a :: rest => if p a then f a :: rest else a :: updateFirstWhere p f rest

/-- Apply `f` to the last element of a list (models in-place mutation of
`messages[messages.length - 1]`). -/
def mapLast {α : Type} (f : α → α) : List α → List α
  | [] => []
  | [a] => [f a]
  | a :: rest => a :: mapLast f rest

@[simp]
theorem lookupKey_setKey_self {α β : Type} [DecidableEq α] (m : List (α × β)) (k : α) (v : β) :
    lookupKey (setKey m k v) k = some v := by
  simp [lookupKey, setKey]

@[simp]
theorem lookupKey_setKey_ne {α β : Type} [DecidableEq α] (m : List (α × β)) (k k' : α) (v : β)
    (h : k' ≠ k) : lookupKey (setKey m k v) k' = lookupKey m k' := by
  simp [lookupKey, setKey, h]

theorem mapLast_concat {α : Type} (f : α → α) (l : List α) (a : α) :
    mapLast f (l ++ [a]) = l ++ [f a] := by
  induction l with
  | nil => simp [mapLast]
  | cons b rest ih =>
    cases rest with
    | nil => simp [mapLast]
    | cons c rest' => simpa [mapLast] using ih

theorem mapLast_ne_nil {α : Type} (f : α → α) (a : α) (l : List α) :
    mapLast f (a :: l) ≠ [] := by
  cases l <;> simp [mapLast]

theorem getLast?_cons_of_ne_nil {α : Type} (a : α) (l : List α) (h : l ≠ []) :
    (a :: l).getLast? = l.getLast? := by
  cases l with
  | nil => exact absurd rfl h
  | cons b t => exact List.getLast?_cons_cons ..

theorem getLast?_mapLast {α : Type} (f : α → α) (l : List α) :
    (mapLast f l).getLast? = l.getLast?.map f := by
  induction l with
  | nil => simp [mapLast]
  | cons b rest ih =>
    cases rest with
    | nil => simp [mapLast]
    | cons c rest' =>
      have h1 : mapLast f (b :: c :: rest') = b :: mapLast f (c :: rest') := rfl
      rw [h1, getLast?_cons_of_ne_nil _ _ (mapLast_ne_nil f c rest'),
        List.getLast?_cons_cons]
      exact ih

theorem find?_updateFirstWhere {α : Type} (p : α → Bool) (f : α → α) (l : List α)
    (hf : ∀ a, p a → p (f a)) :
    (updateFirstWhere p f l).find? p = (l.find? p).map f := by
  induction l with
  | nil => simp [updateFirstWhere]
  | cons a rest ih =>
    by_cases h : p a
    · simp [updateFirstWhere, h, List.find?_cons_of_pos, hf a h]
    · rw [updateFirstWhere, if_neg (by simp [h]), List.find?_cons_of_neg _ h,
        List.find?_cons_of_neg _ h]
      exact ih

/-- Fold invariance: a property preserved by each step is preserved by
`List.foldl`. -/
theorem foldl_preserve {α σ : Type} (f : σ → α → σ) (P : σ → Prop) (l : List α) (s : σ)
    (h : ∀ s a, a ∈ l → P s → P (f s a)) (hs : P s) : P (l.foldl f s) := by
  induction l generalizing s with
  | nil => simpa using hs
  | cons a rest ih =>
    simp only [List.foldl_cons]
    exact ih _ (fun s' a' ha' => h s' a' (List.mem_cons_of_mem _ ha')) (h s a (List.mem_cons_self _ _) hs)

/-! ## Push-protocol frame formatting (src/server/sse.ts, `formatSse`)

`formatSse(event, data)` builds a list of lines, appends an empty line, and
returns `lines.join('\n') + '\n'`.  The payload cases mirror the source:
`undefined`, `null`, a string (split on the regex `\r?\n`), and any other
value (carried here as its `JSON.stringify` serialization). -/

inductive SseData
  | undef
  | null
  | str (s : String)
  | other (json : String)
deriving DecidableEq

/-- Split a character list at every LF. -/
def splitLF : List Char → List (List Char)
  | [] => [[]]
  | c :: rest =>
    if c = '\n' then [] :: splitLF rest
    else
      match splitLF rest with
      | [] => [[c]]
      | p :: ps => (c :: p) :: ps

/-- Remove one trailing CR, if present. -/
def dropTrailingCR (l : List Char) : List Char :=
  if l.getLast? = some '\r' then l.dropLast else l

/-- Apply `f` to every element except the last one. -/
def mapExceptLast {α : Type} (f : α → α) : List α → List α
  | [] => []
  | [a] => [a]
  | a :: rest => f a :: mapExceptLast f rest

/-- Splitting on the regex `\r?\n`, as `data.split(/\r?\n/)` does: an LF,
optionally preceded by a CR, separates parts; a lone CR does not.  Since the
`\r?` is greedy, this is the same as splitting at every LF and then removing
one trailing CR from every part except the last. -/
def splitNl (cs : List Char) : List (List Char) :=
  mapExceptLast dropTrailingCR (splitLF cs)

def splitNlStr (s : String) : List String :=
  (splitNl s.data).map (fun l => String.mk l)

def dataLines : SseData → List String
  | .undef => ["data:"]
  | .null => ["data: null"]
  | .str s => (splitNlStr s).map (fun part => "data: " ++ part)
  | .other j => ["data: " ++ j]

/-- The `lines` array built by `formatSse` before the final empty line. -/
def sseLines (event : String) (d : SseData) : List String :=
  (if event = "" then [] else ["event: " ++ event]) ++ dataLines d

/-- JS `Array.prototype.join('\n')`. -/
def joinLines : List String → String
  | [] => ""
  | [l] => l
  | l :: rest => l ++ "\n" ++ joinLines rest

def formatSse (event : String) (d : SseData) : String :=
  joinLines (sseLines event d ++ [""]) ++ "\n"

theorem splitLF_ne_nil : ∀ cs, splitLF cs ≠ []
  | [] => by simp [splitLF]
  | c :: rest => by
    rw [splitLF]
    split
    · simp
    · split
      · simp
      · simp

theorem splitLF_no_nl : ∀ cs, ∀ p ∈ splitLF cs, '\n' ∉ p
  | [] => by simp [splitLF]
  | c :: rest => by
    have ih := splitLF_no_nl rest
    rw [splitLF]
    split
    · intro p hp
      rcases List.mem_cons.mp hp with rfl | hm
      · simp
      · exact ih p hm
    · next h =>
      split
      · next heq => exact absurd heq (splitLF_ne_nil rest)
      · next p ps heq =>
        intro q hq
        rcases List.mem_cons.mp hq with rfl | hm
        · intro hmem
          rcases List.mem_cons.mp hmem with hc | hp
          · exact h hc.symm
          · exact ih p (by rw [heq]; exact List.mem_cons_self _ _) hp
        · exact ih q (by rw [heq]; exact List.mem_cons_of_mem _ hm)

theorem dropTrailingCR_no_nl (l : List Char) (h : '\n' ∉ l) : '\n' ∉ dropTrailingCR l := by
  unfold dropTrailingCR
  split
  · exact fun hm => h (List.dropLast_subset l hm)
  · exact h

theorem mapExceptLast_pred {α : Type} (P : α → Prop) (f : α → α) :
    ∀ l, (∀ a ∈ l, P a) → (∀ a, P a → P (f a)) → ∀ b ∈ mapExceptLast f l, P b
  | [], _, _ => by simp [mapExceptLast]
  | [a], h, hf => by
    simpa [mapExceptLast] using h a (List.mem_singleton_self a)
  | a :: b :: rest, h, hf => by
    intro q hq
    rw [show mapExceptLast f (a :: b :: rest) = f a :: mapExceptLast f (b :: rest) from rfl]
      at hq
    rcases List.mem_cons.mp hq with rfl | hm
    · exact hf a (h a (List.mem_cons_self _ _))
    · exact mapExceptLast_pred P f (b :: rest)
        (fun x hx => h x (List.mem_cons_of_mem _ hx)) hf q hm

theorem mapExceptLast_ne_nil {α : Type} (f : α → α) (l : List α) (h : l ≠ []) :
    mapExceptLast f l ≠ [] := by
  cases l with
  | nil => exact absurd rfl h
  | cons a rest => cases rest <;> simp [mapExceptLast]

theorem splitNl_ne_nil (cs : List Char) : splitNl cs ≠ [] :=
  mapExceptLast_ne_nil _ _ (splitLF_ne_nil cs)

theorem splitNl_no_nl (cs : List Char) : ∀ p ∈ splitNl cs, '\n' ∉ p :=
  mapExceptLast_pred (fun l => '\n' ∉ l) dropTrailingCR (splitLF cs)
    (splitLF_no_nl cs) dropTrailingCR_no_nl

theorem string_ne_empty_iff_data (s : String) : s ≠ "" ↔ s.data ≠ [] := by
  cases s
  simp [String.ext_iff]

theorem joinLines_concat (L : List String) (x : String) (h : L ≠ []) :
    joinLines (L ++ [x]) = joinLines L ++ "\n" ++ x := by
  induction L with
  | nil => exact absurd rfl h
  | cons a rest ih =>
    cases rest with
    | nil => simp [joinLines]
    | cons b rest' =>
      have h1 : joinLines ((a :: b :: rest') ++ [x])
          = a ++ "\n" ++ joinLines ((b :: rest') ++ [x]) := rfl
      have h2 : joinLines (a :: b :: rest') = a ++ "\n" ++ joinLines (b :: rest') := rfl
      rw [h1, h2, ih (by simp)]
      simp [String.append_assoc]

/-- No two adjacent characters are both LF (so the only blank line of a
frame is its terminator). -/
def noNlPair (a b : Char) : Prop := ¬(a = '\n' ∧ b = '\n')

theorem chain'_of_no_nl : ∀ xs : List Char, '\n' ∉ xs → List.Chain' noNlPair xs
  | [], _ => List.chain'_nil
  | [_], _ => List.chain'_singleton _
  | a :: b :: t, h => by
    rw [List.chain'_cons]
    refine ⟨fun hab => ?_, chain'_of_no_nl (b :: t) (fun hm => h (List.mem_cons_of_mem _ hm))⟩
    exact h (hab.1 ▸ List.mem_cons_self _ _)

theorem joinLines_head (L : List String) (hne : L ≠ [])
    (h : ∀ l ∈ L, l ≠ "" ∧ '\n' ∉ l.data) :
    ∃ c cs0, (joinLines L).data = c :: cs0 ∧ c ≠ '\n' := by
  cases L with
  | nil => exact absurd rfl hne
  | cons l rest =>
    have hl := h l (List.mem_cons_self _ _)
    have hd : l.data ≠ [] := (string_ne_empty_iff_data l).mp hl.1
    obtain ⟨c, cs0, hceq⟩ : ∃ c cs0, l.data = c :: cs0 := by
      cases hcd : l.data with
      | nil => exact absurd hcd hd
      | cons c cs0 => exact ⟨c, cs0, rfl⟩
    have hcne : c ≠ '\n' := fun hc => hl.2 (by rw [hceq, hc]; exact List.mem_cons_self _ _)
    cases rest with
    | nil => exact ⟨c, cs0, by simpa [joinLines] using hceq, hcne⟩
    | cons l2 rest' =>
      refine ⟨c, cs0 ++ '\n' :: (joinLines (l2 :: rest')).data, ?_, hcne⟩
      rw [show joinLines (l :: l2 :: rest') = l ++ "\n" ++ joinLines (l2 :: rest') from rfl]
      simp [String.data_append, hceq]

theorem chain'_joinLines : ∀ L : List String, (∀ l ∈ L, l ≠ "" ∧ '\n' ∉ l.data) →
    List.Chain' noNlPair ((joinLines L).data ++ ['\n'])
  | [], _ => by simp [joinLines]
  | [l], h => by
    have hl := h l (List.mem_cons_self _ _)
    rw [show joinLines [l] = l from rfl, List.chain'_append]
    refine ⟨chain'_of_no_nl _ hl.2, List.chain'_singleton _, ?_⟩
    intro x hx y hy
    simp only [List.head?_cons, Option.mem_def, Option.some.injEq] at hy
    exact fun hcontra => hl.2 (hcontra.1 ▸ List.mem_of_mem_getLast? hx)
  | l :: l2 :: rest, h => by
    have hl := h l (List.mem_cons_self _ _)
    have htail : ∀ x ∈ l2 :: rest, x ≠ "" ∧ '\n' ∉ x.data :=
      fun x hx => h x (List.mem_cons_of_mem _ hx)
    have ih := chain'_joinLines (l2 :: rest) htail
    obtain ⟨c, cs0, hceq, hcne⟩ := joinLines_head (l2 :: rest) (by simp) htail
    rw [show joinLines (l :: l2 :: rest) = l ++ "\n" ++ joinLines (l2 :: rest) from rfl]
    have hdata : (l ++ "\n" ++ joinLines (l2 :: rest)).data ++ ['\n']
        = l.data ++ ('\n' :: ((joinLines (l2 :: rest)).data ++ ['\n'])) := by
      simp [String.data_append]
    rw [hdata, List.chain'_append]
    refine ⟨chain'_of_no_nl _ hl.2, ?_, ?_⟩
    · rw [List.chain'_cons']
      refine ⟨?_, ih⟩
      intro y hy
      rw [hceq] at hy
      simp only [List.cons_append, List.head?_cons, Option.mem_def, Option.some.injEq] at hy
      exact fun hcontra => hcne (hy ▸ hcontra.2)
    · intro x hx y hy
      simp only [List.head?_cons, Option.mem_def, Option.some.injEq] at hy
      exact fun hcontra => hl.2 (hcontra.1 ▸ List.mem_of_mem_getLast? hx)

theorem dataLines_ne_nil (d : SseData) : dataLines d ≠ [] := by
  cases d with
  | str s =>
    simp only [dataLines, ne_eq, List.map_eq_nil_iff, splitNlStr]
    exact fun hc => splitNl_ne_nil s.data (by simpa using hc)
  | _ => simp [dataLines]

theorem sseLines_ne_nil (event : String) (d : SseData) : sseLines event d ≠ [] := by
  unfold sseLines
  intro hc
  rcases List.append_eq_nil.mp hc with ⟨_, h2⟩
  exact dataLines_ne_nil d h2

/-- Payload-side assumption for `formatSse`: the event name contains no LF
(event names are fixed identifiers such as `chat:message-chunk`), and a
non-string payload is serialized by `JSON.stringify`, which never emits a
raw LF. -/
def sseInputOk (event : String) (d : SseData) : Prop :=
  '\n' ∉ event.data ∧ match d with
    | .other j => '\n' ∉ j.data
    | _ => True

theorem sseLines_no_nl (event : String) (d : SseData) (h : sseInputOk event d) :
    ∀ l ∈ sseLines event d, l ≠ "" ∧ '\n' ∉ l.data := by
  intro l hl
  unfold sseLines at hl
  rcases List.mem_append.mp hl with hev | hdat
  · have hleq : l = "event: " ++ event := by
      by_cases hevE : event = "" <;> simp [hevE] at hev
      exact hev
    subst hleq
    constructor
    · rw [string_ne_empty_iff_data]
      simp [String.data_append]
    · rw [String.data_append]
      intro hm
      rcases List.mem_append.mp hm with h1 | h2
      · revert h1; decide
      · exact h.1 h2
  · cases d with
    | undef =>
      simp only [dataLines, List.mem_singleton] at hdat
      subst hdat
      exact ⟨by decide, by decide⟩
    | null =>
      simp only [dataLines, List.mem_singleton] at hdat
      subst hdat
      exact ⟨by decide, by decide⟩
    | other j =>
      simp only [dataLines, List.mem_singleton] at hdat
      subst hdat
      refine ⟨by rw [string_ne_empty_iff_data]; simp [String.data_append], ?_⟩
      rw [String.data_append]
      intro hm
      rcases List.mem_append.mp hm with h1 | h2
      · revert h1; decide
      · exact h.2 h2
    | str s =>
      simp only [dataLines, List.mem_map] at hdat
      obtain ⟨part, hpart, hpe⟩ := hdat
      subst hpe
      simp only [splitNlStr, List.mem_map] at hpart
      obtain ⟨p, hp, hpe2⟩ := hpart
      subst hpe2
      refine ⟨by rw [string_ne_empty_iff_data]; simp [String.data_append], ?_⟩
      rw [String.data_append]
      intro hm
      rcases List.mem_append.mp hm with h1 | h2
      · revert h1; decide
      · exact splitNl_no_nl s.data p hp h2

/-- C10: every frame produced by `formatSse` is well-formed: a non-empty
event name yields a first line `event: <name>`; a string payload is split
so that each of its lines becomes its own `data: ` line; a null payload is
encoded as `data: null`; every line of the frame body is non-empty and
LF-free; and the frame is the body followed by exactly one empty line, with
no interior blank line, so consecutive frames never merge or truncate. -/
theorem c10_formatSse_well_formed (event : String) (d : SseData) (h : sseInputOk event d) :
    (event ≠ "" → (sseLines event d).head? = some ("event: " ++ event)) ∧
    (∀ s, d = SseData.str s →
      dataLines d = (splitNlStr s).map (fun part => "data: " ++ part)) ∧
    (d = SseData.null → dataLines d = ["data: null"]) ∧
    (∀ l ∈ sseLines event d, l ≠ "" ∧ '\n' ∉ l.data) ∧
    (formatSse event d).data = (joinLines (sseLines event d)).data ++ ['\n', '\n'] ∧
    List.Chain' noNlPair ((joinLines (sseLines event d)).data ++ ['\n']) := by
  refine ⟨?_, ?_, ?_, sseLines_no_nl event d h, ?_, ?_⟩
  · intro hev
    simp [sseLines, hev]
  · intro s hs
    subst hs
    rfl
  · intro hd
    subst hd
    rfl
  · unfold formatSse
    rw [joinLines_concat _ _ (sseLines_ne_nil event d)]
    simp [String.data_append]
  · exact chain'_joinLines _ (sseLines_no_nl event d h)

/-- Witness for C10 at the event name `chat:init` and payload `"a\nb"`. -/
theorem c10_formatSse_well_formed_witness :
    (("chat:init" : String) ≠ "" →
      (sseLines "chat:init" (SseData.str "a\nb")).head? = some ("event: " ++ "chat:init")) ∧
    (∀ s, SseData.str "a\nb" = SseData.str s →
      dataLines (SseData.str "a\nb") = (splitNlStr s).map (fun part => "data: " ++ part)) ∧
    (SseData.str "a\nb" = SseData.null → dataLines (SseData.str "a\nb") = ["data: null"]) ∧
    (∀ l ∈ sseLines "chat:init" (SseData.str "a\nb"), l ≠ "" ∧ '\n' ∉ l.data) ∧
    (formatSse "chat:init" (SseData.str "a\nb")).data
      = (joinLines (sseLines "chat:init" (SseData.str "a\nb"))).data ++ ['\n', '\n'] ∧
    List.Chain' noNlPair
      ((joinLines (sseLines "chat:init" (SseData.str "a\nb"))).data ++ ['\n']) :=
  c10_formatSse_well_formed "chat:init" (SseData.str "a\nb") (by constructor <;> decide)

/-- JS whitespace for `String.prototype.trim` (the common subset: space,
tab, LF, CR, VT, FF, NBSP). -/
def isJsWhitespace (c : Char) : Bool :=
  c == ' ' || c == '\t' || c == '\n' || c == '\r' || c == '\x0b' || c == '\x0c' ||
    c == '\u00a0'

/-- JS `text.trim()`. -/
def jsTrim (s : String) : String :=
  String.mk (((s.data.dropWhile isJsWhitespace).reverse.dropWhile isJsWhitespace).reverse)

/-! ## Session data model (src/server/index.ts session module)

The module-level mutable variables of the session module become the fields
of `AgentState`.  `MessageWire.id` is the numeric value of the
`messageSequence` counter (the source stores `String(messageSequence++)`);
`timestamp` is the `now` instant instead of its ISO rendering.  A tool's
`input` record and all parsed JSON values are represented by their
serialized form. -/

structure SubagentToolCall where
  id : String
  name : String
  input : String
  streamIndex : Option Nat := none
  inputJson : Option String := none
  parsedInput : Option String := none
  result : Option String := none
  isLoading : Option Bool := none
  isError : Option Bool := none
deriving DecidableEq

structure ToolUseState where
  id : String
  name : String
  input : String
  streamIndex : Nat
  inputJson : Option String := none
  parsedInput : Option String := none
  result : Option String := none
  isLoading : Option Bool := none
  isError : Option Bool := none
  subagentCalls : Option (List SubagentToolCall) := none
deriving DecidableEq

inductive BlockType
  | text
  | tool_use
  | thinking
deriving DecidableEq

structure ContentBlock where
  type : BlockType
  text : Option String := none
  tool : Option ToolUseState := none
  thinking : Option String := none
  thinkingStartedAt : Option Nat := none
  thinkingDurationMs : Option Int := none
  thinkingStreamIndex : Option Nat := none
  isComplete : Option Bool := none
deriving DecidableEq

inductive Role
  | user
  | assistant
deriving DecidableEq

/-- `MessageWire.content` is either a plain string or a block array. -/
inductive Content
  | str (s : String)
  | blocks (l : List ContentBlock)
deriving DecidableEq

structure MessageWire where
  id : Nat
  role : Role
  content : Content
  timestamp : Nat
deriving DecidableEq

inductive SessionState
  | idle
  | running
  | error
deriving DecidableEq

/-- One broadcast on the push channel (`broadcast(event, payload)`); the
constructor names the `chat:*` event, the arguments its payload. -/
inductive Broadcast
  | status (sessionState : SessionState)
  | messageReplay (message : MessageWire)
  | messageChunk (text : String)
  | thinkingStart (index : Nat)
  | thinkingChunk (index : Nat) (delta : String)
  | toolUseStart (id name input : String) (streamIndex : Nat)
  | toolInputDelta (index : Nat) (toolId : String) (delta : String)
  | contentBlockStop (index : Nat) (toolId : Option String)
  | toolResultStart (toolUseId content : String) (isError : Bool)
  | toolResultDelta (toolUseId delta : String)
  | toolResultComplete (toolUseId content : String) (isError : Option Bool)
  | subagentToolUse (parentToolUseId id name input : String) (streamIndex : Option Nat)
  | subagentToolInputDelta (parentToolUseId toolId delta : String)
  | subagentToolResultStart (parentToolUseId toolUseId content : String) (isError : Bool)
  | subagentToolResultDelta (parentToolUseId toolUseId delta : String)
  | subagentToolResultComplete (parentToolUseId toolUseId content : String)
      (isError : Option Bool)
  | messageComplete
  | messageStopped
  | messageError (message : String)
deriving DecidableEq

/-- The module-level mutable state of the session module.  `broadcasts` and
`runtimeInterrupts` are instrumentation: the ordered log of push-channel
events and the number of `querySession.interrupt()` calls. -/
structure AgentState where
  agentDir : String := ""
  hasInitialPrompt : Bool := false
  sessionState : SessionState := .idle
  querySession : Bool := false
  isProcessing : Bool := false
  shouldAbortSession : Bool := false
  isInterruptingResponse : Bool := false
  isStreamingMessage : Bool := false
  messages : List MessageWire := []
  streamIndexToToolId : List (Nat × String) := []
  toolResultIndexToId : List (Nat × String) := []
  childToolToParent : List (String × String) := []
  messageSequence : Nat := 0
  messageQueue : List String := []
  broadcasts : List Broadcast := []
  runtimeInterrupts : Nat := 0
deriving DecidableEq

/-- The two external JSON parsers: `jsonParse` is `JSON.parse` (`none` when
it would throw), `parsePartialJson` the renderer's best-effort incremental
parser.  Parsed values are carried as serialized strings. -/
structure JsonParsers where
  jsonParse : String → Option String
  parsePartialJson : String → Option String

def pushBroadcast (s : AgentState) (b : Broadcast) : AgentState :=
  { s with broadcasts := s.broadcasts ++ [b] }

/-- `setSessionState`: assigns and broadcasts `chat:status` only on change. -/
def setSessionState (s : AgentState) (nextState : SessionState) : AgentState :=
  if s.sessionState = nextState then s
  else pushBroadcast { s with sessionState := nextState } (.status nextState)

/-- The guard of `ensureAssistantMessage`: the last message is an assistant
message and a response is streaming into it. -/
def openAssistant (s : AgentState) : Bool :=
  match s.messages.getLast? with
  | some m => m.role == .assistant && s.isStreamingMessage
  | none => false

def ensureAssistantMessage (s : AgentState) (now : Nat) : AgentState :=
  if openAssistant s then s
  else
    { s with
      messages := s.messages ++
        [{ id := s.messageSequence, role := .assistant, content := .str "", timestamp := now }],
      messageSequence := s.messageSequence + 1,
      isStreamingMessage := true }

/-- Mutate the content of the last message in place. -/
def modifyLastContent (s : AgentState) (f : Content → Content) : AgentState :=
  { s with messages := mapLast (fun m => { m with content := f m.content }) s.messages }

/-- `ensureContentArray`: convert string content to a block array (an empty
string yields an empty array). -/
def ensureContentArray : Content → List ContentBlock
  | .str t => if t = "" then [] else [{ type := .text, text := some t }]
  | .blocks l => l

/-- `appendTextChunk` on the content of the open assistant message. -/
def appendTextChunkContent (c : Content) (chunk : String) : Content :=
  match c with
  | .str t => .str (t ++ chunk)
  | .blocks l =>
    match l.getLast? with
    | some b =>
      if b.type == .text then
        .blocks (mapLast (fun bb => { bb with text := some (bb.text.getD "" ++ chunk) }) l)
      else .blocks (l ++ [{ type := .text, text := some chunk }])
    | none => .blocks [{ type := .text, text := some chunk }]

def appendTextChunk (s : AgentState) (now : Nat) (chunk : String) : AgentState :=
  modifyLastContent (ensureAssistantMessage s now) (fun c => appendTextChunkContent c chunk)

def handleThinkingStart (s : AgentState) (now : Nat) (index : Nat) : AgentState :=
  modifyLastContent (ensureAssistantMessage s now) (fun c =>
    .blocks (ensureContentArray c ++
      [{ type := .thinking, thinking := some "", thinkingStreamIndex := some index,
         thinkingStartedAt := some now }]))

/-- Predicate for the open thinking block keyed by a stream index
(`block.type === 'thinking' && block.thinkingStreamIndex === index &&
!block.isComplete`). -/
def isOpenThinkingAt (index : Nat) (b : ContentBlock) : Bool :=
  b.type == .thinking && b.thinkingStreamIndex == some index && !(b.isComplete.getD false)

def handleThinkingChunk (s : AgentState) (now : Nat) (index : Nat) (delta : String) :
    AgentState :=
  modifyLastContent (ensureAssistantMessage s now) (fun c =>
    .blocks (updateFirstWhere (isOpenThinkingAt index)
      (fun b => { b with thinking := some (b.thinking.getD "" ++ delta) })
      (ensureContentArray c)))

def handleToolUseStart (s : AgentState) (now : Nat) (id name input : String)
    (streamIndex : Nat) : AgentState :=
  modifyLastContent (ensureAssistantMessage s now) (fun c =>
    .blocks (ensureContentArray c ++
      [{ type := .tool_use,
         tool := some { id := id, name := name, input := input, streamIndex := streamIndex,
                        inputJson := some "" } }]))

/-- Predicate for a tool-use block with a given tool id
(`block.type === 'tool_use' && block.tool?.id === toolId`). -/
def isToolBlockWithId (toolId : String) (b : ContentBlock) : Bool :=
  b.type == .tool_use && (match b.tool with
    | some t => t.id == toolId
    | none => false)

def isToolBlockWithStreamIndex (index : Nat) (b : ContentBlock) : Bool :=
  b.type == .tool_use && (match b.tool with
    | some t => t.streamIndex == index
    | none => false)

def handleToolInputDelta (jp : JsonParsers) (s : AgentState) (now : Nat) (index : Nat)
    (toolId : String) (delta : String) : AgentState :=
  modifyLastContent (ensureAssistantMessage s now) (fun c =>
    .blocks (updateFirstWhere (isToolBlockWithId toolId)
      (fun b => { b with tool := b.tool.map (fun t =>
        let newInputJson := t.inputJson.getD "" ++ delta
        { t with
          inputJson := some newInputJson,
          parsedInput := match jp.parsePartialJson newInputJson with
            | some v => some v
            | none => t.parsedInput }) })
      (ensureContentArray c)))

/-- The strict-parse reconciliation done when a block closes:
`JSON.parse` with graceful fallback to `parsePartialJson`. -/
def reconcileParsedInput (jp : JsonParsers) (inputJson : String)
    (prev : Option String) : Option String :=
  match jp.jsonParse inputJson with
  | some v => some v
  | none =>
    match jp.parsePartialJson inputJson with
    | some v => some v
    | none => prev

def handleContentBlockStop (jp : JsonParsers) (s : AgentState) (now : Nat) (index : Nat)
    (toolId : Option String) : AgentState :=
  modifyLastContent (ensureAssistantMessage s now) (fun c =>
    let contentArray := ensureContentArray c
    match contentArray.find? (isOpenThinkingAt index) with
    | some _ =>
      .blocks (updateFirstWhere (isOpenThinkingAt index)
        (fun b => { b with
          isComplete := some true,
          thinkingDurationMs := match b.thinkingStartedAt with
            | some t => if t = 0 then none else some ((now : Int) - (t : Int))
            | none => none })
        contentArray)
    | none =>
      let pred := match toolId with
        | some tid => isToolBlockWithId tid
        | none => isToolBlockWithStreamIndex index
      .blocks (updateFirstWhere
        (fun b => pred b && (match b.tool with
          | some t => !(t.inputJson.getD "" == "")
          | none => false))
        (fun b => { b with tool := b.tool.map (fun t =>
          { t with parsedInput :=
              reconcileParsedInput jp (t.inputJson.getD "") t.parsedInput }) })
        contentArray))

/-- `findToolBlockById`: scan messages from the most recent one backwards
for the first assistant message holding a `tool_use` block with the id. -/
def findToolBlockByIdRev : List MessageWire → String → Option ToolUseState
  | [], _ => none
  | m :: rest, toolUseId =>
    match m.role, m.content with
    | .assistant, .blocks l =>
      match l.find? (isToolBlockWithId toolUseId) with
      | some b => b.tool
      | none => findToolBlockByIdRev rest toolUseId
    | _, _ => findToolBlockByIdRev rest toolUseId

def findToolBlockById (msgs : List MessageWire) (toolUseId : String) : Option ToolUseState :=
  findToolBlockByIdRev msgs.reverse toolUseId

/-- In-place mutation through the reference returned by
`findToolBlockById`: update the same block the backward scan finds. -/
def updateToolByIdRev (toolUseId : String) (f : ToolUseState → ToolUseState) :
    List MessageWire → List MessageWire
  | [] => []
  | m :: rest =>
    match m.role, m.content with
    | .assistant, .blocks l =>
      match l.find? (isToolBlockWithId toolUseId) with
      | some _ =>
        { m with content := .blocks (updateFirstWhere (isToolBlockWithId toolUseId)
            (fun b => { b with tool := b.tool.map f }) l) } :: rest
      | none => m :: updateToolByIdRev toolUseId f rest
    | _, _ => m :: updateToolByIdRev toolUseId f rest

def updateToolById (msgs : List MessageWire) (toolUseId : String)
    (f : ToolUseState → ToolUseState) : List MessageWire :=
  (updateToolByIdRev toolUseId f msgs.reverse).reverse

/-! ## Subagent (nested tool call) handlers -/

def handleSubagentToolUseStart (s : AgentState) (parentToolUseId : String)
    (id name input : String) (streamIndex : Option Nat) : AgentState :=
  match findToolBlockById s.messages parentToolUseId with
  | none => s
  | some parentTool =>
    let s1 := { s with childToolToParent := setKey s.childToolToParent id parentToolUseId }
    if (parentTool.subagentCalls.getD []).any (fun call => call.id == id) then
      { s1 with messages := updateToolById s1.messages parentToolUseId (fun t =>
          { t with subagentCalls := some (updateFirstWhere (fun call => call.id == id)
              (fun call => { call with
                  name := name, input := input, streamIndex := streamIndex })
              (t.subagentCalls.getD [])) }) }
    else
      { s1 with messages := updateToolById s1.messages parentToolUseId (fun t =>
          { t with subagentCalls := some ((t.subagentCalls.getD []) ++
              [{ id := id, name := name, input := input, streamIndex := streamIndex,
                 inputJson := some input, isLoading := some true }]) }) }

/-- The placeholder subagent entry created on first reference
(`{ id, name: 'Tool', input: {}, inputJson: '{}', isLoading: true }`). -/
def subagentPlaceholder (toolUseId : String) : SubagentToolCall :=
  { id := toolUseId
    name := "Tool"
    input := "{}"
    inputJson := some "{}"
    isLoading := some true }

/-- Defensive placeholder creation for a tool-result naming a child id whose
start event was never observed. -/
def ensureSubagentToolPlaceholder (s : AgentState) (parentToolUseId toolUseId : String) :
    AgentState :=
  match findToolBlockById s.messages parentToolUseId with
  | none => s
  | some parentTool =>
    if (parentTool.subagentCalls.getD []).any (fun call => call.id == toolUseId) then s
    else
      { s with
        childToolToParent := setKey s.childToolToParent toolUseId parentToolUseId,
        messages := updateToolById s.messages parentToolUseId (fun t =>
          { t with subagentCalls := some ((t.subagentCalls.getD []) ++
              [subagentPlaceholder toolUseId]) }) }

def handleSubagentToolInputDelta (jp : JsonParsers) (s : AgentState)
    (parentToolUseId toolId delta : String) : AgentState :=
  match findToolBlockById s.messages parentToolUseId with
  | none => s
  | some parentTool =>
    match parentTool.subagentCalls with
    | none => s
    | some calls =>
      match calls.find? (fun call => call.id == toolId) with
      | none => s
      | some _ =>
        { s with messages := updateToolById s.messages parentToolUseId (fun t =>
            { t with subagentCalls := some (updateFirstWhere (fun call => call.id == toolId)
                (fun call =>
                  let newInputJson := call.inputJson.getD "" ++ delta
                  { call with
                    inputJson := some newInputJson,
                    parsedInput := match jp.parsePartialJson newInputJson with
                      | some v => some v
                      | none => call.parsedInput })
                (t.subagentCalls.getD [])) }) }

def finalizeSubagentToolInput (jp : JsonParsers) (s : AgentState)
    (parentToolUseId toolId : String) : AgentState :=
  match findToolBlockById s.messages parentToolUseId with
  | none => s
  | some parentTool =>
    match parentTool.subagentCalls with
    | none => s
    | some calls =>
      match calls.find? (fun call => call.id == toolId) with
      | none => s
      | some subCall =>
        if subCall.inputJson.getD "" == "" then s
        else
          { s with messages := updateToolById s.messages parentToolUseId (fun t =>
              { t with subagentCalls := some (updateFirstWhere
                  (fun call => call.id == toolId)
                  (fun call => { call with
                      parsedInput :=
                        reconcileParsedInput jp (call.inputJson.getD "") call.parsedInput })
                  (t.subagentCalls.getD [])) }) }

/-- Shared chain of guards for the subagent tool-result handlers: resolve
the learned parent, its block, and the subagent call entry. -/
def resolveSubagentCall (s : AgentState) (toolUseId : String) :
    Option (String × ToolUseState × SubagentToolCall) :=
  match lookupKey s.childToolToParent toolUseId with
  | none => none
  | some parentToolUseId =>
    match findToolBlockById s.messages parentToolUseId with
    | none => none
    | some parentTool =>
      match parentTool.subagentCalls with
      | none => none
      | some calls =>
        match calls.find? (fun call => call.id == toolUseId) with
        | none => none
        | some subCall => some (parentToolUseId, parentTool, subCall)

def updateSubagentCall (s : AgentState) (parentToolUseId toolUseId : String)
    (f : SubagentToolCall → SubagentToolCall) : AgentState :=
  { s with messages := updateToolById s.messages parentToolUseId (fun t =>
      { t with subagentCalls := some (updateFirstWhere (fun call => call.id == toolUseId)
          f (t.subagentCalls.getD [])) }) }

def handleSubagentToolResultStart (s : AgentState) (toolUseId content : String)
    (isError : Bool) : Bool × AgentState :=
  match resolveSubagentCall s toolUseId with
  | none => (false, s)
  | some (parentToolUseId, _, _) =>
    (true, updateSubagentCall s parentToolUseId toolUseId (fun call =>
      { call with
          result := some content, isError := some isError, isLoading := some true }))

def handleSubagentToolResultComplete (s : AgentState) (toolUseId content : String)
    (isError : Option Bool) : Bool × AgentState :=
  match resolveSubagentCall s toolUseId with
  | none => (false, s)
  | some (parentToolUseId, _, _) =>
    (true, updateSubagentCall s parentToolUseId toolUseId (fun call =>
      { call with
          result := some content,
          isError := match isError with
            | some b => some b
            | none => call.isError,
          isLoading := some false }))

def appendSubagentToolResultDelta (s : AgentState) (toolUseId delta : String) :
    Bool × AgentState :=
  match resolveSubagentCall s toolUseId with
  | none => (false, s)
  | some (parentToolUseId, _, _) =>
    (true, updateSubagentCall s parentToolUseId toolUseId (fun call =>
      { call with result := some (call.result.getD "" ++ delta), isLoading := some true }))

def finalizeSubagentToolResult (s : AgentState) (toolUseId : String) : Bool × AgentState :=
  match resolveSubagentCall s toolUseId with
  | none => (false, s)
  | some (parentToolUseId, _, _) =>
    (true, updateSubagentCall s parentToolUseId toolUseId (fun call =>
      { call with isLoading := some false }))

def getSubagentToolResult (s : AgentState) (toolUseId : String) : Option String :=
  match resolveSubagentCall s toolUseId with
  | none => none
  | some (_, _, subCall) => subCall.result

/-! ## Top-level tool-result handlers -/

def setToolResult (s : AgentState) (toolUseId content : String) (isError : Option Bool) :
    AgentState :=
  match findToolBlockById s.messages toolUseId with
  | none => s
  | some _ =>
    { s with messages := updateToolById s.messages toolUseId (fun t =>
        { t with
            result := some content,
            isError := match isError with
              | some b => some b
              | none => t.isError }) }

def getToolResult (s : AgentState) (toolUseId : String) : Option String :=
  (findToolBlockById s.messages toolUseId).bind (fun t => t.result)

/-- `appendToolResultContent`: append with an LF joint onto a non-empty
existing result, overwrite otherwise; returns the new value. -/
def appendToolResultContent (s : AgentState) (toolUseId content : String)
    (isError : Option Bool) : String × AgentState :=
  let existing := getToolResult s toolUseId
  let next := if existing.getD "" = "" then content else existing.getD "" ++ "\n" ++ content
  (next, setToolResult s toolUseId next isError)

def appendToolResultDelta (s : AgentState) (toolUseId delta : String) : AgentState :=
  let r := appendSubagentToolResultDelta s toolUseId delta
  if r.1 then r.2
  else
    match findToolBlockById r.2.messages toolUseId with
    | none => r.2
    | some _ =>
      { r.2 with messages := updateToolById r.2.messages toolUseId (fun t =>
          { t with result := some (t.result.getD "" ++ delta) }) }

def handleToolResultStart (s : AgentState) (toolUseId content : String) (isError : Bool) :
    AgentState :=
  let r := handleSubagentToolResultStart s toolUseId content isError
  if r.1 then r.2 else setToolResult r.2 toolUseId content (some isError)

def handleToolResultComplete (s : AgentState) (toolUseId content : String)
    (isError : Option Bool) : AgentState :=
  let r := handleSubagentToolResultComplete s toolUseId content isError
  if r.1 then r.2 else setToolResult r.2 toolUseId content isError

/-! ## Message lifecycle handlers -/

def handleMessageComplete (s : AgentState) : AgentState :=
  setSessionState { s with isStreamingMessage := false } .idle

/-- Close an open thinking block on interruption, recording its elapsed
duration (`Date.now() - startedAt`; a missing or zero start time yields no
duration, mirroring the JS truthiness check). -/
def stopThinkingBlock (now : Nat) (b : ContentBlock) : ContentBlock :=
  if b.type == .thinking && !(b.isComplete.getD false) then
    { b with
      isComplete := some true,
      thinkingDurationMs := match b.thinkingStartedAt with
        | some t => if t = 0 then none else some ((now : Int) - (t : Int))
        | none => none }
  else b

def handleMessageStopped (s : AgentState) (now : Nat) : AgentState :=
  let s1 := setSessionState { s with isStreamingMessage := false } .idle
  match s1.messages.getLast? with
  | none => s1
  | some m =>
    match m.role, m.content with
    | .assistant, .blocks l =>
      modifyLastContent s1 (fun _ => .blocks (l.map (stopThinkingBlock now)))
    | _, _ => s1

def handleMessageError (s : AgentState) (now : Nat) (error : String) : AgentState :=
  let s1 := setSessionState { s with isStreamingMessage := false } .idle
  { s1 with
    messages := s1.messages ++
      [{ id := s1.messageSequence, role := .assistant,
         content := .str ("Error: " ++ error), timestamp := now }],
    messageSequence := s1.messageSequence + 1 }

def getAgentState (s : AgentState) : String × SessionState × Bool :=
  (s.agentDir, s.sessionState, s.hasInitialPrompt)

/-! ## Command surface -/

def isSessionActive (s : AgentState) : Bool :=
  s.isProcessing || s.querySession

/-- `enqueueUserMessage`.  The asynchronous run startup triggered by
`if (!isSessionActive()) startStreamingSession()` is modelled separately by
the `ConcStep` transition system below; this function captures the
synchronous state mutations of the enqueue itself. -/
def enqueueUserMessage (s : AgentState) (text : String) (now : Nat) : AgentState :=
  let trimmed := jsTrim text
  if trimmed = "" then s
  else
    let s1 := { s with hasInitialPrompt := true }
    let s2 := setSessionState s1 .running
    let userMessage : MessageWire :=
      { id := s2.messageSequence, role := .user, content := .str trimmed, timestamp := now }
    let s3 := { s2 with
      messages := s2.messages ++ [userMessage],
      messageSequence := s2.messageSequence + 1 }
    let s4 := pushBroadcast s3 (.messageReplay userMessage)
    { s4 with messageQueue := s4.messageQueue ++ [trimmed] }

def interruptCurrentResponse (s : AgentState) (now : Nat) : Bool × AgentState :=
  if s.querySession = false then (false, s)
  else if s.isInterruptingResponse then (true, s)
  else
    let s1 := { s with
      isInterruptingResponse := true, runtimeInterrupts := s.runtimeInterrupts + 1 }
    let s2 := pushBroadcast s1 .messageStopped
    let s3 := handleMessageStopped s2 now
    (true, { s3 with isInterruptingResponse := false })

/-- The `finally` block of `startStreamingSession`. -/
def sessionRunFinally (s : AgentState) : AgentState :=
  let s1 := { s with isProcessing := false, querySession := false }
  if s1.sessionState ≠ .error then setSessionState s1 .idle else s1

/-- The `catch` block of `startStreamingSession` (followed by `finally`):
the boundary at which an error raised from the runtime's event stream is
caught. -/
def sessionRunCatch (s : AgentState) (errorMessage : String) (now : Nat) : AgentState :=
  let s1 := pushBroadcast s (.messageError errorMessage)
  let s2 := handleMessageError s1 now errorMessage
  let s3 := setSessionState s2 .error
  sessionRunFinally s3

/-! ## Runtime event model and the consumption-loop body

The loop body of `startStreamingSession` (after the logging preamble)
dispatches on the shape of the SDK message.  Dynamically-typed payload
values are modelled as small sums carrying either a string or the relevant
`JSON.stringify` serialization. -/

inductive StreamDelta
  | textDelta (text : String)
  | thinkingDelta (thinking : String)
  | inputJsonDelta (partialJson : String)
deriving DecidableEq

/-- `content` of an inline tool-result content block: a string, or any
other non-null value carried as `JSON.stringify(content, null, 2)`. -/
inductive StreamVal
  | svstr (s : String)
  | svjson (json : String)
deriving DecidableEq

inductive RawBlock
  | thinking
  | toolUse (id name : String) (input : Option String)
  | toolResult (toolUseId : String) (content : Option StreamVal) (isError : Option Bool)
  | otherBlock
deriving DecidableEq

inductive StreamEvent
  | contentBlockDelta (index : Nat) (delta : StreamDelta)
  | contentBlockStart (index : Nat) (block : RawBlock)
  | contentBlockStop (index : Nat)
deriving DecidableEq

/-- An element of an array-valued tool-result content: a plain string, an
object with a string `text` field, or anything else as its pretty
serialization. -/
inductive RVElem
  | estr (s : String)
  | etext (text : String)
  | eother (json : String)
deriving DecidableEq

/-- `content` of a tool-result block inside an assistant frame. -/
inductive AVal
  | avstr (s : String)
  | avarr (elems : List RVElem)
  | avobj (json : String)
  | avprim (s : String)
deriving DecidableEq

inductive AssistantItem
  | strItem (s : String)
  | textItem (text : String)
  | thinkingItem (thinking : String)
  | toolUseItem (id name : String) (input : Option String)
  | toolResultItem (toolUseId : String) (content : AVal) (isError : Option Bool)
  | otherItem
deriving DecidableEq

/-- `content` of a tool-result block inside a user frame
(`JSON.stringify(content ?? '', null, 2)` for non-strings). -/
inductive UVal
  | uvstr (s : String)
  | uvjson (json : String)
deriving DecidableEq

inductive UserItem
  | toolResultItem (toolUseId : String) (content : UVal)
  | otherItem
deriving DecidableEq

inductive SdkMessage
  | streamEvent (parentToolUseId : Option String) (event : StreamEvent)
  | userMsg (parentToolUseId : Option String) (content : List UserItem)
  | assistantMsg (parentToolUseId : Option String) (content : List AssistantItem)
  | resultMsg
deriving DecidableEq

def streamContentStr : Option StreamVal → String
  | none => ""
  | some (.svstr s) => s
  | some (.svjson j) => j

def avalContentStr : AVal → String
  | .avstr s => s
  | .avarr elems => String.intercalate "\n" (elems.map (fun e =>
      match e with
      | .estr s => s
      | .etext t => t
      | .eother j => j))
  | .avobj j => j
  | .avprim s => s

def uvalContentStr : UVal → String
  | .uvstr s => s
  | .uvjson j => j

/-- `formatAssistantContent`: collect text parts (plain strings, `text`
blocks, non-blank `thinking` blocks), trim them, drop blanks, join with a
double LF. -/
def formatAssistantContent (items : List AssistantItem) : String :=
  let parts := items.foldr (fun it acc =>
    match it with
    | .strItem s => s :: acc
    | .textItem t => t :: acc
    | .thinkingItem th =>
      let tt := jsTrim th
      if tt = "" then acc else ("Thinking:\n" ++ tt) :: acc
    | _ => acc) []
  String.intercalate "\n\n" ((parts.map jsTrim).filter (fun p => p ≠ ""))

/-- `childToolToParent.get(id) ?? sdkMessage.parent_tool_use_id`. -/
def resolveParentFor (s : AgentState) (toolUseId : String)
    (eventParent : Option String) : Option String :=
  match lookupKey s.childToolToParent toolUseId with
  | some q => some q
  | none => eventParent

/-- Text delta: routed as a tool-result delta when the stream has a parent
tool id, as an append to the open assistant message otherwise. -/
def processTextDelta (s : AgentState) (parent : Option String) (text : String)
    (now : Nat) : AgentState :=
  match parent with
  | some x =>
    let s1 := match lookupKey s.childToolToParent x with
      | some grandParent => pushBroadcast s (.subagentToolResultDelta grandParent x text)
      | none => pushBroadcast s (.toolResultDelta x text)
    appendToolResultDelta s1 x text
  | none => appendTextChunk (pushBroadcast s (.messageChunk text)) now text

def processInputJsonDelta (jp : JsonParsers) (s : AgentState) (parent : Option String)
    (index : Nat) (partialJson : String) (now : Nat) : AgentState :=
  let toolId := (lookupKey s.streamIndexToToolId index).getD ""
  match parent with
  | some p =>
    handleSubagentToolInputDelta jp
      (pushBroadcast s (.subagentToolInputDelta p toolId partialJson)) p toolId partialJson
  | none =>
    handleToolInputDelta jp (pushBroadcast s (.toolInputDelta index toolId partialJson))
      now index toolId partialJson

def processContentBlockStart (jp : JsonParsers) (s : AgentState) (parent : Option String)
    (index : Nat) (block : RawBlock) (now : Nat) : AgentState :=
  match block with
  | .thinking => handleThinkingStart (pushBroadcast s (.thinkingStart index)) now index
  | .toolUse id name input =>
    let s1 := { s with streamIndexToToolId := setKey s.streamIndexToToolId index id }
    let inputStr := input.getD "{}"
    match parent with
    | some p =>
      handleSubagentToolUseStart
        (pushBroadcast s1 (.subagentToolUse p id name inputStr (some index)))
        p id name inputStr (some index)
    | none =>
      handleToolUseStart (pushBroadcast s1 (.toolUseStart id name inputStr index))
        now id name inputStr index
  | .toolResult toolUseId content isError =>
    let s1 := { s with toolResultIndexToId := setKey s.toolResultIndexToId index toolUseId }
    let contentStr := streamContentStr content
    if contentStr = "" then s1
    else
      let s2 := match resolveParentFor s1 toolUseId parent with
        | some p =>
          let sEnsured :=
            if (lookupKey s1.childToolToParent toolUseId).isNone then
              ensureSubagentToolPlaceholder s1 p toolUseId
            else s1
          pushBroadcast sEnsured
            (.subagentToolResultStart p toolUseId contentStr (isError.getD false))
        | none => pushBroadcast s1 (.toolResultStart toolUseId contentStr (isError.getD false))
      handleToolResultStart s2 toolUseId contentStr (isError.getD false)
  | .otherBlock => s

/-- `toolId || undefined`. -/
def orUndef : Option String → Option String
  | some t => if t = "" then none else some t
  | none => none

def processContentBlockStop (jp : JsonParsers) (s : AgentState) (parent : Option String)
    (index : Nat) (now : Nat) : AgentState :=
  let toolId := lookupKey s.streamIndexToToolId index
  match parent with
  | some p =>
    let s1 := match toolId with
      | some t => finalizeSubagentToolInput jp s p t
      | none => s
    match lookupKey s1.toolResultIndexToId index with
    | some toolResultId =>
      let s2 := { s1 with toolResultIndexToId := eraseKey s1.toolResultIndexToId index }
      let r := finalizeSubagentToolResult s2 toolResultId
      if r.1 then
        let result := (getSubagentToolResult r.2 toolResultId).getD ""
        match lookupKey r.2.childToolToParent toolResultId with
        | some parentToolUseId =>
          pushBroadcast r.2 (.subagentToolResultComplete parentToolUseId toolResultId
            result none)
        | none => r.2
      else r.2
    | none => s1
  | none =>
    let s1 := pushBroadcast s (.contentBlockStop index (orUndef toolId))
    handleContentBlockStop jp s1 now index (orUndef toolId)

/-- One tool-result block of a user frame with a parent tool id (the sdk
parent is non-null here, so the resolved parent always exists). -/
def processUserToolResult (s : AgentState) (par : String) (toolUseId : String)
    (cval : UVal) : AgentState :=
  let contentStr := uvalContentStr cval
  let pid := (lookupKey s.childToolToParent toolUseId).getD par
  let s1 :=
    if (lookupKey s.childToolToParent toolUseId).isNone then
      ensureSubagentToolPlaceholder s pid toolUseId
    else s
  let s2 := pushBroadcast s1 (.subagentToolResultComplete pid toolUseId contentStr none)
  handleToolResultComplete s2 toolUseId contentStr none

def processUserMsg (s : AgentState) (parent : Option String) (items : List UserItem) :
    AgentState :=
  match parent with
  | none => s
  | some par =>
    items.foldl (fun st it =>
      match it with
      | .toolResultItem toolUseId cval => processUserToolResult st par toolUseId cval
      | .otherItem => st) s

def processAssistantPhase1 (s : AgentState) (parent : Option String)
    (items : List AssistantItem) : AgentState :=
  match parent with
  | none => s
  | some par =>
    items.foldl (fun st it =>
      match it with
      | .toolUseItem id name input =>
        handleSubagentToolUseStart
          (pushBroadcast st (.subagentToolUse par id name (input.getD "{}") none))
          par id name (input.getD "{}") none
      | _ => st) s

def processAssistantParentText (s : AgentState) (parent : Option String)
    (items : List AssistantItem) : AgentState :=
  match parent with
  | none => s
  | some par =>
    let text := formatAssistantContent items
    if text = "" then s
    else
      let r := appendToolResultContent s par text none
      pushBroadcast r.2 (.toolResultComplete par r.1 none)

def processAssistantToolResult (s : AgentState) (parent : Option String)
    (toolUseId : String) (cval : AVal) (isError : Option Bool) : AgentState :=
  let contentStr := avalContentStr cval
  let s2 := match resolveParentFor s toolUseId parent with
    | some p =>
      let s1 :=
        if (lookupKey s.childToolToParent toolUseId).isNone then
          ensureSubagentToolPlaceholder s p toolUseId
        else s
      pushBroadcast s1
        (.subagentToolResultComplete p toolUseId contentStr (some (isError.getD false)))
    | none =>
      pushBroadcast s (.toolResultComplete toolUseId contentStr (some (isError.getD false)))
  handleToolResultComplete s2 toolUseId contentStr (some (isError.getD false))

def processAssistantPhase3 (s : AgentState) (parent : Option String)
    (items : List AssistantItem) : AgentState :=
  items.foldl (fun st it =>
    match it with
    | .toolResultItem toolUseId cval isError =>
      processAssistantToolResult st parent toolUseId cval isError
    | _ => st) s

/-- One iteration of the `for await` consumption loop (after the logging
preamble): dispatch the SDK message and mirror it onto the transcript and
the push channel.  The `shouldAbortSession` break is the identity here. -/
def processSdkMessage (jp : JsonParsers) (s : AgentState) (msg : SdkMessage) (now : Nat) :
    AgentState :=
  if s.shouldAbortSession then s
  else
    match msg with
    | .streamEvent parent ev =>
      match ev with
      | .contentBlockDelta index d =>
        match d with
        | .textDelta t => processTextDelta s parent t now
        | .thinkingDelta th =>
          handleThinkingChunk (pushBroadcast s (.thinkingChunk index th)) now index th
        | .inputJsonDelta pj => processInputJsonDelta jp s parent index pj now
      | .contentBlockStart index b => processContentBlockStart jp s parent index b now
      | .contentBlockStop index => processContentBlockStop jp s parent index now
    | .userMsg parent items => processUserMsg s parent items
    | .assistantMsg parent items =>
      let s1 := processAssistantPhase1 s parent items
      let s2 := processAssistantParentText s1 parent items
      processAssistantPhase3 s2 parent items
    | .resultMsg => handleMessageComplete (pushBroadcast s .messageComplete)

structure HttpChatResponse where
  status : Nat
  success : Bool
  error : Option String
deriving DecidableEq

/-- The `/chat/send` route handler: trim the payload text, reject an empty
result with a 400 before touching the session. -/
def chatSendHandler (s : AgentState) (payloadText : Option String) (now : Nat) :
    HttpChatResponse × AgentState :=
  let text := (payloadText.map jsTrim).getD ""
  if text = "" then
    ({ status := 400, success := false, error := some "Message cannot be empty." }, s)
  else
    ({ status := 200, success := true, error := none }, enqueueUserMessage s text now)

/-- Every state-mutating operation that can run after startup, for
lifetime invariants over the session singleton. -/
inductive AgentOp
  | enqueue (text : String) (now : Nat)
  | interrupt (now : Nat)
  | sdk (msg : SdkMessage) (now : Nat)
  | runError (errorMessage : String) (now : Nat)
  | runFinally
deriving DecidableEq

def applyOp (jp : JsonParsers) (s : AgentState) : AgentOp → AgentState
  | .enqueue text now => enqueueUserMessage s text now
  | .interrupt now => (interruptCurrentResponse s now).2
  | .sdk msg now => processSdkMessage jp s msg now
  | .runError errorMessage now => sessionRunCatch s errorMessage now
  | .runFinally => sessionRunFinally s

/-! ## Run-startup concurrency (enqueueUserMessage / startStreamingSession)

The asynchronous interleaving of `enqueueUserMessage`,
`startStreamingSession` and run teardown is modelled as a transition
system.  Atomic steps are the synchronous segments between `await` points
of the source:

* an enqueue runs synchronously through `startStreamingSession` up to its
  first suspension: if `sessionTerminationPromise` is `null` the guard and
  the whole startup prologue (through the `query(...)` assignment) run in
  the same segment, otherwise the starter suspends awaiting the promise
  current at that moment (`termGen` numbers the successive promises);
* a suspended starter resumes only once the awaited promise generation is
  resolved, and then the guard re-check plus (on success) the startup
  prologue run as one segment;
* the `finally` block of a run is one synchronous segment that clears
  `isProcessing`/`querySession` and resolves the current promise.

`liveRuns` counts runtime sessions between startup prologue and
`finally`; `messages` keeps only the texts, enough for the append part of
the claim. -/
structure ConcState where
  isProcessing : Bool := false
  querySession : Bool := false
  termGen : Nat := 0
  termResolved : Bool := false
  starters : List Nat := []
  liveRuns : Nat := 0
  messages : List String := []
deriving DecidableEq

/-- The startup prologue of `startStreamingSession` once past the guard,
through the `query(...)` assignment: flags set, a fresh unresolved
termination promise installed, a runtime session now live. -/
def startRunNow (s : ConcState) : ConcState :=
  { s with
    isProcessing := true,
    querySession := true,
    termGen := s.termGen + 1,
    termResolved := false,
    liveRuns := s.liveRuns + 1 }

/-- Promise generation `g` is resolved: it was replaced by a later one, or
it is the current one and its run's `finally` ran. -/
def resolvedGen (s : ConcState) (g : Nat) : Prop :=
  g < s.termGen ∨ (g = s.termGen ∧ s.termResolved = true)

inductive ConcStep : ConcState → ConcState → Prop
  | enqueueActive (s : ConcState) (text : String)
      (h : s.isProcessing = true ∨ s.querySession = true) :
      ConcStep s { s with messages := s.messages ++ [text] }
  | enqueueStartFresh (s : ConcState) (text : String)
      (h1 : s.isProcessing = false) (h2 : s.querySession = false) (h3 : s.termGen = 0) :
      ConcStep s (startRunNow { s with messages := s.messages ++ [text] })
  | enqueueStartAwait (s : ConcState) (text : String)
      (h1 : s.isProcessing = false) (h2 : s.querySession = false) (h3 : s.termGen ≠ 0) :
      ConcStep s { s with
        messages := s.messages ++ [text],
        starters := s.starters ++ [s.termGen] }
  | resumeStart (s : ConcState) (g : Nat) (hm : g ∈ s.starters) (hres : resolvedGen s g)
      (h1 : s.isProcessing = false) (h2 : s.querySession = false) :
      ConcStep s (startRunNow { s with starters := s.starters.erase g })
  | resumeReturn (s : ConcState) (g : Nat) (hm : g ∈ s.starters) (hres : resolvedGen s g)
      (h : s.isProcessing = true ∨ s.querySession = true) :
      ConcStep s { s with starters := s.starters.erase g }
  | finishRun (s : ConcState) (h : s.isProcessing = true) :
      ConcStep s { s with
        isProcessing := false,
        querySession := false,
        termResolved := true,
        liveRuns := s.liveRuns - 1 }

def ConcState.init : ConcState := {}

inductive ConcReachable : ConcState → Prop
  | init : ConcReachable ConcState.init
  | step {s s' : ConcState} : ConcReachable s → ConcStep s s' → ConcReachable s'

/-- The inductive invariant of the run-startup protocol. -/
def ConcInv (s : ConcState) : Prop :=
  s.liveRuns ≤ 1 ∧
  (s.isProcessing = true ↔ s.liveRuns = 1) ∧
  s.querySession = s.isProcessing ∧
  (s.termGen = 0 → s.liveRuns = 0)

theorem concInv_init : ConcInv ConcState.init := by
  refine ⟨?_, ?_, ?_, ?_⟩ <;> simp [ConcState.init, ConcInv]

theorem concInv_step {s s' : ConcState} (hinv : ConcInv s) (hstep : ConcStep s s') :
    ConcInv s' := by
  obtain ⟨h1, h2, h3, h4⟩ := hinv
  cases hstep with
  | enqueueActive text h => exact ⟨h1, h2, h3, h4⟩
  | enqueueStartFresh text hp hq hg =>
    have hlr : s.liveRuns = 0 := by
      have hne : s.liveRuns ≠ 1 := fun hc => by
        rw [h2.mpr hc] at hp; exact Bool.noConfusion hp
      omega
    exact ⟨by simp [startRunNow, hlr], by simp [startRunNow, hlr],
      by simp [startRunNow], by simp [startRunNow]⟩
  | enqueueStartAwait text hp hq hg => exact ⟨h1, h2, h3, h4⟩
  | resumeStart g hm hres hp hq =>
    have hlr : s.liveRuns = 0 := by
      have hne : s.liveRuns ≠ 1 := fun hc => by
        rw [h2.mpr hc] at hp; exact Bool.noConfusion hp
      omega
    exact ⟨by simp [startRunNow, hlr], by simp [startRunNow, hlr],
      by simp [startRunNow], by simp [startRunNow]⟩
  | resumeReturn g hm hres h => exact ⟨h1, h2, h3, h4⟩
  | finishRun hp =>
    have hlr : s.liveRuns = 1 := h2.mp hp
    exact ⟨by simp; omega, by simp [hlr], by simp, by simp [hlr]⟩

theorem concReachable_inv (s : ConcState) (h : ConcReachable s) : ConcInv s := by
  induction h with
  | init => exact concInv_init
  | step _ hstep ih => exact concInv_step ih hstep

/-- C1: at most one runtime session is ever live.  In every reachable
state of the run-startup protocol at most one run is live (so two runtime
sessions never coexist; a starter that suspends awaiting a prior run's
termination promise can only pass the `isProcessing || querySession`
re-check once that run's `finally` has released the handle), and every
enqueue — including one made while a run is active — has a step appending
its user message to the transcript. -/
theorem c1_single_runtime :
    (∀ s, ConcReachable s → s.liveRuns ≤ 1) ∧
    (∀ (s : ConcState) (text : String),
      ∃ s', ConcStep s s' ∧ s'.messages = s.messages ++ [text]) := by
  constructor
  · exact fun s h => (concReachable_inv s h).1
  · intro s text
    by_cases hp : s.isProcessing = true ∨ s.querySession = true
    · exact ⟨_, ConcStep.enqueueActive s text hp, rfl⟩
    · push_neg at hp
      have hp1 : s.isProcessing = false := by
        cases hip : s.isProcessing with
        | false => rfl
        | true => exact absurd hip hp.1
      have hp2 : s.querySession = false := by
        cases hqs : s.querySession with
        | false => rfl
        | true => exact absurd hqs hp.2
      by_cases hg : s.termGen = 0
      · exact ⟨_, ConcStep.enqueueStartFresh s text hp1 hp2 hg, by simp [startRunNow]⟩
      · exact ⟨_, ConcStep.enqueueStartAwait s text hp1 hp2 hg, rfl⟩

/-- Witness for C1: the state reached by one enqueue from the initial
state, and a concrete enqueue step. -/
theorem c1_single_runtime_witness :
    (startRunNow { ConcState.init with
      messages := ConcState.init.messages ++ ["hello"] }).liveRuns ≤ 1 ∧
    ∃ s', ConcStep ConcState.init s' ∧ s'.messages = ConcState.init.messages ++ ["hello"] :=
  ⟨c1_single_runtime.1 _ (ConcReachable.step ConcReachable.init
      (ConcStep.enqueueStartFresh ConcState.init "hello" rfl rfl rfl)),
    c1_single_runtime.2 ConcState.init "hello"⟩

/-! ## C2: text-delta concatenation -/

/-- The text being accumulated at the tail of an open assistant message:
the whole content when it is still a plain string, the trailing text
block's text when the content is a block array ending in a text block,
and the empty string otherwise. -/
def tailTextOfContent : Content → String
  | .str st => st
  | .blocks l =>
    match l.getLast? with
    | some b => if b.type == .text then b.text.getD "" else ""
    | none => ""

/-- The accumulated tail text of the open assistant message, `none` when no
assistant message is open. -/
def openTailText (s : AgentState) : Option String :=
  (s.messages.getLast?).bind (fun m =>
    if m.role == .assistant && s.isStreamingMessage then some (tailTextOfContent m.content)
    else none)

def concatStrings : List String → String
  | [] => ""
  | s :: rest => s ++ concatStrings rest

theorem tailText_appendTextChunkContent (c : Content) (chunk : String) :
    tailTextOfContent (appendTextChunkContent c chunk) = tailTextOfContent c ++ chunk := by
  cases c with
  | str t => rfl
  | blocks l =>
    cases hl : l.getLast? with
    | none =>
      simp [appendTextChunkContent, hl, tailTextOfContent]
    | some b =>
      by_cases hb : b.type == BlockType.text
      · simp only [appendTextChunkContent, hl, hb, if_true, tailTextOfContent,
          getLast?_mapLast, Option.map_some]
        simp [hb]
      · simp only [appendTextChunkContent, hl, hb, if_false, tailTextOfContent,
          List.getLast?_concat]
        simp [hb]

theorem openTailText_appendTextChunk (s : AgentState) (now : Nat) (chunk t0 : String)
    (h : openTailText s = some t0) :
    openTailText (appendTextChunk s now chunk) = some (t0 ++ chunk) := by
  unfold openTailText at h
  cases hm : s.messages.getLast? with
  | none => rw [hm] at h; exact absurd h (by simp)
  | some m =>
    rw [hm, Option.some_bind] at h
    by_cases hcond : (m.role == Role.assistant && s.isStreamingMessage) = true
    · rw [if_pos hcond] at h
      have ht0 : t0 = tailTextOfContent m.content := (Option.some.inj h).symm
      have hopen : openAssistant s = true := by
        unfold openAssistant; rw [hm]; exact hcond
      unfold appendTextChunk
      rw [ensureAssistantMessage, if_pos hopen]
      unfold openTailText modifyLastContent
      simp only [getLast?_mapLast, hm, Option.map_some', Option.some_bind, hcond, if_true]
      rw [tailText_appendTextChunkContent, ht0]
    · rw [if_neg hcond] at h; exact absurd h (by simp)

/-- C2: folding any sequence of no-parent text deltas over the reducer
appends their concatenation, in arrival order, to the open assistant
message's accumulated text — whether the message content is still a plain
string or already a block array (whose trailing text block then carries
the accumulated text). -/
theorem c2_text_delta_concat (s : AgentState) (now : Nat) (deltas : List String)
    (t0 : String) (h : openTailText s = some t0) :
    openTailText (deltas.foldl (fun st d => appendTextChunk st now d) s)
      = some (t0 ++ concatStrings deltas) := by
  induction deltas generalizing s t0 with
  | nil => simpa [concatStrings] using h
  | cons d rest ih =>
    have hstep := openTailText_appendTextChunk s now d t0 h
    have hrec := ih _ _ hstep
    rw [List.foldl_cons]
    rw [hrec, concatStrings, String.append_assoc]

/-- An open assistant message whose content is a block array ending in a
(non-text) thinking block, for the C2 witness. -/
def c2WitnessState : AgentState :=
  { messages :=
      [{ id := 0
         role := .assistant
         content := .blocks
           [{ type := .thinking
              thinking := some "x"
              thinkingStreamIndex := some 0
              thinkingStartedAt := some 1 }]
         timestamp := 0 }]
    isStreamingMessage := true }

/-- Witness for C2: the two deltas land in a fresh trailing text block. -/
theorem c2_text_delta_concat_witness :
    openTailText ((["Hel", "lo"] : List String).foldl
      (fun st d => appendTextChunk st 7 d) c2WitnessState)
      = some ("" ++ concatStrings ["Hel", "lo"]) :=
  c2_text_delta_concat c2WitnessState 7 ["Hel", "lo"] "" rfl

/-! ## C3: runtime errors surface as a new assistant message -/

/-- C3: an error raised from the runtime's event stream, caught at the
consumption-loop boundary, appends exactly one new assistant message whose
content is `Error: ` followed by the error text (so every pre-existing
message is unchanged), broadcasts `chat:message-error`, and leaves the
session in state `error`. -/
theorem c3_runtime_error_new_message (s : AgentState) (errorMessage : String) (now : Nat) :
    (sessionRunCatch s errorMessage now).messages
      = s.messages ++
        [{ id := s.messageSequence
           role := .assistant
           content := .str ("Error: " ++ errorMessage)
           timestamp := now }] ∧
    (sessionRunCatch s errorMessage now).sessionState = .error ∧
    (sessionRunCatch s errorMessage now).broadcasts
      = s.broadcasts ++ [.messageError errorMessage]
        ++ (if s.sessionState = .idle then [] else [.status .idle])
        ++ [.status .error] := by
  unfold sessionRunCatch handleMessageError sessionRunFinally setSessionState pushBroadcast
  by_cases h : s.sessionState = .idle <;> simp [h]

/-! ## C4: interruption with no run fails; concurrent interrupts no-op -/

/-- C4: interrupting with no live runtime handle returns `false` and
changes nothing; an interrupt arriving while another interrupt is already
in flight returns `true` without a second runtime interrupt, broadcast, or
transcript mutation (the state is returned unchanged). -/
theorem c4_interrupt_idempotent (s : AgentState) (now : Nat) :
    (s.querySession = false → interruptCurrentResponse s now = (false, s)) ∧
    (s.querySession = true → s.isInterruptingResponse = true →
      interruptCurrentResponse s now = (true, s)) := by
  constructor
  · intro h
    simp [interruptCurrentResponse, h]
  · intro h1 h2
    simp [interruptCurrentResponse, h1, h2]

theorem c4_interrupt_idempotent_witness :
    interruptCurrentResponse {} 0 = (false, ({} : AgentState)) ∧
    interruptCurrentResponse
        { querySession := true, isInterruptingResponse := true } 0
      = (true, ({ querySession := true, isInterruptingResponse := true } : AgentState)) :=
  ⟨(c4_interrupt_idempotent {} 0).1 rfl,
    (c4_interrupt_idempotent { querySession := true, isInterruptingResponse := true } 0).2
      rfl rfl⟩

/-! ## C8: blank enqueue requests are rejected without touching state -/

/-- C8: a text that trims to the empty string is rejected: the `/chat/send`
handler answers 400/failure without calling into the session, and
`enqueueUserMessage` itself returns the state unchanged — no message, no
status or replay broadcast, no feed push. -/
theorem c8_blank_enqueue_rejected (s : AgentState) (text : String) (now : Nat)
    (h : jsTrim text = "") :
    enqueueUserMessage s text now = s ∧
    chatSendHandler s (some text) now
      = ({ status := 400, success := false, error := some "Message cannot be empty." }, s) := by
  constructor
  · simp [enqueueUserMessage, h]
  · simp [chatSendHandler, h]

/-! ## C5: interruption closes open thinking blocks -/

@[simp]
theorem setSessionState_messages (s : AgentState) (st : SessionState) :
    (setSessionState s st).messages = s.messages := by
  unfold setSessionState pushBroadcast
  split <;> rfl

theorem handleMessageStopped_messages_concat (s : AgentState) (now : Nat)
    (ms : List MessageWire) (m : MessageWire) (bs : List ContentBlock)
    (hmsgs : s.messages = ms ++ [m]) (hrole : m.role = .assistant)
    (hcontent : m.content = .blocks bs) :
    (handleMessageStopped s now).messages
      = ms ++ [{ m with content := .blocks (bs.map (stopThinkingBlock now)) }] := by
  have h1 : (setSessionState { s with isStreamingMessage := false }
      SessionState.idle).messages = ms ++ [m] := by
    rw [setSessionState_messages]; exact hmsgs
  unfold handleMessageStopped
  simp only [h1, List.getLast?_concat, hrole, hcontent]
  unfold modifyLastContent
  simp only [h1, mapLast_concat]
  rw [hrole]

/-- C5: interrupting a live run (no interrupt already in flight) succeeds
and rewrites the open assistant message's blocks with `stopThinkingBlock`;
every thinking block that was open at that moment becomes completed, and
when its start time was recorded (and the clock is monotone) its duration
is the non-negative `now - startedAt`. -/
theorem c5_interrupt_closes_thinking (s : AgentState) (now : Nat) (ms : List MessageWire)
    (m : MessageWire) (bs : List ContentBlock)
    (hq : s.querySession = true) (hi : s.isInterruptingResponse = false)
    (hmsgs : s.messages = ms ++ [m]) (hrole : m.role = .assistant)
    (hcontent : m.content = .blocks bs) :
    (interruptCurrentResponse s now).1 = true ∧
    (interruptCurrentResponse s now).2.messages
      = ms ++ [{ m with content := .blocks (bs.map (stopThinkingBlock now)) }] ∧
    (∀ b ∈ bs, b.type = .thinking → b.isComplete ≠ some true →
      (stopThinkingBlock now b).isComplete = some true ∧
      ∀ t, b.thinkingStartedAt = some t → 0 < t → t ≤ now →
        (stopThinkingBlock now b).thinkingDurationMs = some ((now : Int) - (t : Int)) ∧
        0 ≤ ((now : Int) - (t : Int))) := by
  refine ⟨?_, ?_, ?_⟩
  · simp [interruptCurrentResponse, hq, hi]
  · have hms2 : (pushBroadcast { s with
        isInterruptingResponse := true
        runtimeInterrupts := s.runtimeInterrupts + 1 } Broadcast.messageStopped).messages
        = ms ++ [m] := hmsgs
    have hkey := handleMessageStopped_messages_concat _ now ms m bs hms2 hrole hcontent
    simp only [interruptCurrentResponse]
    rw [if_neg (by rw [hq]; simp), if_neg (by rw [hi]; simp)]
    simpa using hkey
  · intro b _ htype hopen
    have hcomplete : b.isComplete.getD false = false := by
      cases hic : b.isComplete with
      | none => rfl
      | some v =>
        cases v with
        | false => rfl
        | true => exact absurd hic hopen
    have hcond : (b.type == BlockType.thinking && !(b.isComplete.getD false)) = true := by
      simp [htype, hcomplete]
    refine ⟨by simp [stopThinkingBlock, hcond], ?_⟩
    intro t hst ht0 htle
    have htne : ¬(t = 0) := by omega
    constructor
    · simp [stopThinkingBlock, hcond, hst, htne]
    · omega

/-- Concrete state for the C5 witness: a live run streaming into an
assistant message holding one open thinking block. -/
def c5WitnessState : AgentState :=
  { querySession := true
    isStreamingMessage := true
    messages :=
      [{ id := 0
         role := .assistant
         content := .blocks
           [{ type := .thinking
              thinking := some "pondering"
              thinkingStreamIndex := some 0
              thinkingStartedAt := some 3 }]
         timestamp := 0 }] }

def c5WitnessBlock : ContentBlock :=
  { type := .thinking
    thinking := some "pondering"
    thinkingStreamIndex := some 0
    thinkingStartedAt := some 3 }

def c5WitnessMessage : MessageWire :=
  { id := 0
    role := .assistant
    content := .blocks [c5WitnessBlock]
    timestamp := 0 }

theorem c5_interrupt_closes_thinking_witness :
    (interruptCurrentResponse c5WitnessState 10).1 = true ∧
    (interruptCurrentResponse c5WitnessState 10).2.messages
      = [] ++ [{ c5WitnessMessage with
          content := .blocks ([c5WitnessBlock].map (stopThinkingBlock 10)) }] ∧
    (∀ b ∈ [c5WitnessBlock], b.type = .thinking → b.isComplete ≠ some true →
      (stopThinkingBlock 10 b).isComplete = some true ∧
      ∀ t, b.thinkingStartedAt = some t → 0 < t → t ≤ 10 →
        (stopThinkingBlock 10 b).thinkingDurationMs = some ((10 : Int) - (t : Int)) ∧
        0 ≤ ((10 : Int) - (t : Int))) :=
  c5_interrupt_closes_thinking c5WitnessState 10 [] c5WitnessMessage
    [c5WitnessBlock] rfl rfl rfl rfl rfl

theorem c8_blank_enqueue_rejected_witness :
    enqueueUserMessage {} "  " 0 = ({} : AgentState) ∧
    chatSendHandler {} (some "  ") 0
      = ({ status := 400, success := false, error := some "Message cannot be empty." },
        ({} : AgentState)) :=
  c8_blank_enqueue_rejected {} "  " 0 (by decide)

/-! ## Frame lemmas: no handler but `enqueueUserMessage` ever writes
`hasInitialPrompt` -/

@[simp]
theorem hip_pushBroadcast (s : AgentState) (b : Broadcast) :
    (pushBroadcast s b).hasInitialPrompt = s.hasInitialPrompt := rfl

@[simp]
theorem hip_setSessionState (s : AgentState) (st : SessionState) :
    (setSessionState s st).hasInitialPrompt = s.hasInitialPrompt := by
  unfold setSessionState pushBroadcast
  split <;> rfl

@[simp]
theorem hip_ensureAssistantMessage (s : AgentState) (now : Nat) :
    (ensureAssistantMessage s now).hasInitialPrompt = s.hasInitialPrompt := by
  unfold ensureAssistantMessage
  split <;> rfl

@[simp]
theorem hip_modifyLastContent (s : AgentState) (f : Content → Content) :
    (modifyLastContent s f).hasInitialPrompt = s.hasInitialPrompt := rfl

@[simp]
theorem hip_appendTextChunk (s : AgentState) (now : Nat) (chunk : String) :
    (appendTextChunk s now chunk).hasInitialPrompt = s.hasInitialPrompt := by
  unfold appendTextChunk
  simp

@[simp]
theorem hip_handleThinkingStart (s : AgentState) (now index : Nat) :
    (handleThinkingStart s now index).hasInitialPrompt = s.hasInitialPrompt := by
  unfold handleThinkingStart
  simp

@[simp]
theorem hip_handleThinkingChunk (s : AgentState) (now index : Nat) (delta : String) :
    (handleThinkingChunk s now index delta).hasInitialPrompt = s.hasInitialPrompt := by
  unfold handleThinkingChunk
  simp

@[simp]
theorem hip_handleToolUseStart (s : AgentState) (now : Nat) (id name input : String)
    (streamIndex : Nat) :
    (handleToolUseStart s now id name input streamIndex).hasInitialPrompt
      = s.hasInitialPrompt := by
  unfold handleToolUseStart
  simp

@[simp]
theorem hip_handleToolInputDelta (jp : JsonParsers) (s : AgentState) (now index : Nat)
    (toolId delta : String) :
    (handleToolInputDelta jp s now index toolId delta).hasInitialPrompt
      = s.hasInitialPrompt := by
  unfold handleToolInputDelta
  simp

@[simp]
theorem hip_handleContentBlockStop (jp : JsonParsers) (s : AgentState) (now index : Nat)
    (toolId : Option String) :
    (handleContentBlockStop jp s now index toolId).hasInitialPrompt
      = s.hasInitialPrompt := by
  unfold handleContentBlockStop
  simp

@[simp]
theorem hip_handleSubagentToolUseStart (s : AgentState) (p id name input : String)
    (streamIndex : Option Nat) :
    (handleSubagentToolUseStart s p id name input streamIndex).hasInitialPrompt
      = s.hasInitialPrompt := by
  unfold handleSubagentToolUseStart
  split
  · rfl
  · split <;> rfl

@[simp]
theorem hip_ensureSubagentToolPlaceholder (s : AgentState) (p toolUseId : String) :
    (ensureSubagentToolPlaceholder s p toolUseId).hasInitialPrompt
      = s.hasInitialPrompt := by
  unfold ensureSubagentToolPlaceholder
  split
  · rfl
  · split <;> rfl

@[simp]
theorem hip_handleSubagentToolInputDelta (jp : JsonParsers) (s : AgentState)
    (p toolId delta : String) :
    (handleSubagentToolInputDelta jp s p toolId delta).hasInitialPrompt
      = s.hasInitialPrompt := by
  unfold handleSubagentToolInputDelta
  repeat' split
  all_goals rfl

@[simp]
theorem hip_finalizeSubagentToolInput (jp : JsonParsers) (s : AgentState)
    (p toolId : String) :
    (finalizeSubagentToolInput jp s p toolId).hasInitialPrompt = s.hasInitialPrompt := by
  unfold finalizeSubagentToolInput
  repeat' split
  all_goals rfl

@[simp]
theorem hip_updateSubagentCall (s : AgentState) (p toolUseId : String)
    (f : SubagentToolCall → SubagentToolCall) :
    (updateSubagentCall s p toolUseId f).hasInitialPrompt = s.hasInitialPrompt := rfl

@[simp]
theorem hip_handleSubagentToolResultStart (s : AgentState) (toolUseId content : String)
    (isError : Bool) :
    (handleSubagentToolResultStart s toolUseId content isError).2.hasInitialPrompt
      = s.hasInitialPrompt := by
  unfold handleSubagentToolResultStart
  split <;> rfl

@[simp]
theorem hip_handleSubagentToolResultComplete (s : AgentState) (toolUseId content : String)
    (isError : Option Bool) :
    (handleSubagentToolResultComplete s toolUseId content isError).2.hasInitialPrompt
      = s.hasInitialPrompt := by
  unfold handleSubagentToolResultComplete
  split <;> rfl

@[simp]
theorem hip_appendSubagentToolResultDelta (s : AgentState) (toolUseId delta : String) :
    (appendSubagentToolResultDelta s toolUseId delta).2.hasInitialPrompt
      = s.hasInitialPrompt := by
  unfold appendSubagentToolResultDelta
  split <;> rfl

@[simp]
theorem hip_finalizeSubagentToolResult (s : AgentState) (toolUseId : String) :
    (finalizeSubagentToolResult s toolUseId).2.hasInitialPrompt = s.hasInitialPrompt := by
  unfold finalizeSubagentToolResult
  split <;> rfl

@[simp]
theorem hip_setToolResult (s : AgentState) (toolUseId content : String)
    (isError : Option Bool) :
    (setToolResult s toolUseId content isError).hasInitialPrompt = s.hasInitialPrompt := by
  unfold setToolResult
  split <;> rfl

@[simp]
theorem hip_appendToolResultContent (s : AgentState) (toolUseId content : String)
    (isError : Option Bool) :
    (appendToolResultContent s toolUseId content isError).2.hasInitialPrompt
      = s.hasInitialPrompt := by
  unfold appendToolResultContent
  simp

@[simp]
theorem hip_appendToolResultDelta (s : AgentState) (toolUseId delta : String) :
    (appendToolResultDelta s toolUseId delta).hasInitialPrompt = s.hasInitialPrompt := by
  unfold appendToolResultDelta
  dsimp only
  split
  · simp
  · split <;> simp

@[simp]
theorem hip_handleToolResultStart (s : AgentState) (toolUseId content : String)
    (isError : Bool) :
    (handleToolResultStart s toolUseId content isError).hasInitialPrompt
      = s.hasInitialPrompt := by
  unfold handleToolResultStart
  dsimp only
  split <;> simp

@[simp]
theorem hip_handleToolResultComplete (s : AgentState) (toolUseId content : String)
    (isError : Option Bool) :
    (handleToolResultComplete s toolUseId content isError).hasInitialPrompt
      = s.hasInitialPrompt := by
  unfold handleToolResultComplete
  dsimp only
  split <;> simp

@[simp]
theorem hip_handleMessageComplete (s : AgentState) :
    (handleMessageComplete s).hasInitialPrompt = s.hasInitialPrompt := by
  unfold handleMessageComplete
  simp

@[simp]
theorem hip_handleMessageStopped (s : AgentState) (now : Nat) :
    (handleMessageStopped s now).hasInitialPrompt = s.hasInitialPrompt := by
  unfold handleMessageStopped
  dsimp only
  cases hm : s.messages.getLast? with
  | none => simp [hm]
  | some m => cases hr : m.role <;> cases hc : m.content <;> simp [hm, hr, hc]

@[simp]
theorem hip_handleMessageError (s : AgentState) (now : Nat) (error : String) :
    (handleMessageError s now error).hasInitialPrompt = s.hasInitialPrompt := by
  unfold handleMessageError
  simp

@[simp]
theorem hip_sessionRunFinally (s : AgentState) :
    (sessionRunFinally s).hasInitialPrompt = s.hasInitialPrompt := by
  unfold sessionRunFinally
  dsimp only
  split <;> simp

@[simp]
theorem hip_sessionRunCatch (s : AgentState) (errorMessage : String) (now : Nat) :
    (sessionRunCatch s errorMessage now).hasInitialPrompt = s.hasInitialPrompt := by
  unfold sessionRunCatch
  simp

@[simp]
theorem hip_interruptCurrentResponse (s : AgentState) (now : Nat) :
    (interruptCurrentResponse s now).2.hasInitialPrompt = s.hasInitialPrompt := by
  unfold interruptCurrentResponse
  dsimp only
  split
  · rfl
  · split
    · rfl
    · simp

@[simp]
theorem hip_processTextDelta (s : AgentState) (parent : Option String) (text : String)
    (now : Nat) :
    (processTextDelta s parent text now).hasInitialPrompt = s.hasInitialPrompt := by
  unfold processTextDelta
  dsimp only
  repeat' split
  all_goals simp

@[simp]
theorem hip_processInputJsonDelta (jp : JsonParsers) (s : AgentState)
    (parent : Option String) (index : Nat) (partialJson : String) (now : Nat) :
    (processInputJsonDelta jp s parent index partialJson now).hasInitialPrompt
      = s.hasInitialPrompt := by
  unfold processInputJsonDelta
  dsimp only
  repeat' split
  all_goals simp

@[simp]
theorem hip_processContentBlockStart (jp : JsonParsers) (s : AgentState)
    (parent : Option String) (index : Nat) (block : RawBlock) (now : Nat) :
    (processContentBlockStart jp s parent index block now).hasInitialPrompt
      = s.hasInitialPrompt := by
  unfold processContentBlockStart
  dsimp only
  repeat' split
  all_goals simp

@[simp]
theorem hip_processContentBlockStop (jp : JsonParsers) (s : AgentState)
    (parent : Option String) (index : Nat) (now : Nat) :
    (processContentBlockStop jp s parent index now).hasInitialPrompt
      = s.hasInitialPrompt := by
  unfold processContentBlockStop
  dsimp only
  repeat' split
  all_goals simp

@[simp]
theorem hip_processUserToolResult (s : AgentState) (par toolUseId : String) (cval : UVal) :
    (processUserToolResult s par toolUseId cval).hasInitialPrompt
      = s.hasInitialPrompt := by
  unfold processUserToolResult
  dsimp only
  split <;> simp

@[simp]
theorem hip_processUserMsg (s : AgentState) (parent : Option String)
    (items : List UserItem) :
    (processUserMsg s parent items).hasInitialPrompt = s.hasInitialPrompt := by
  unfold processUserMsg
  split
  · rfl
  · refine foldl_preserve _ (fun st : AgentState => st.hasInitialPrompt = s.hasInitialPrompt) _ _ ?_ rfl
    intro st it _ hst
    cases it <;> simp [hst]

@[simp]
theorem hip_processAssistantPhase1 (s : AgentState) (parent : Option String)
    (items : List AssistantItem) :
    (processAssistantPhase1 s parent items).hasInitialPrompt = s.hasInitialPrompt := by
  unfold processAssistantPhase1
  split
  · rfl
  · refine foldl_preserve _ (fun st : AgentState => st.hasInitialPrompt = s.hasInitialPrompt) _ _ ?_ rfl
    intro st it _ hst
    cases it <;> simp [hst]

@[simp]
theorem hip_processAssistantParentText (s : AgentState) (parent : Option String)
    (items : List AssistantItem) :
    (processAssistantParentText s parent items).hasInitialPrompt
      = s.hasInitialPrompt := by
  unfold processAssistantParentText
  dsimp only
  repeat' split
  all_goals simp

@[simp]
theorem hip_processAssistantToolResult (s : AgentState) (parent : Option String)
    (toolUseId : String) (cval : AVal) (isError : Option Bool) :
    (processAssistantToolResult s parent toolUseId cval isError).hasInitialPrompt
      = s.hasInitialPrompt := by
  unfold processAssistantToolResult
  dsimp only
  repeat' split
  all_goals simp

@[simp]
theorem hip_processAssistantPhase3 (s : AgentState) (parent : Option String)
    (items : List AssistantItem) :
    (processAssistantPhase3 s parent items).hasInitialPrompt = s.hasInitialPrompt := by
  unfold processAssistantPhase3
  refine foldl_preserve _ (fun st : AgentState => st.hasInitialPrompt = s.hasInitialPrompt) _ _ ?_ rfl
  intro st it _ hst
  cases it <;> simp [hst]

@[simp]
theorem hip_processSdkMessage (jp : JsonParsers) (s : AgentState) (msg : SdkMessage)
    (now : Nat) :
    (processSdkMessage jp s msg now).hasInitialPrompt = s.hasInitialPrompt := by
  unfold processSdkMessage
  dsimp only
  repeat' split
  all_goals simp

/-! ## C9: `hasInitialPrompt` is monotone over the process lifetime -/

/-- Trivial instantiation of the external JSON parsers (both always fail),
used to instantiate universally-quantified theorems at concrete inputs. -/
def jpTrivial : JsonParsers :=
  { jsonParse := fun _ => none, parsePartialJson := fun _ => none }

/-- C9: any successful (non-blank) enqueue sets `hasInitialPrompt`, and no
post-startup operation — enqueues, interrupts, runtime events, run errors
or teardowns — ever clears it, so `getAgentState().hasInitialPrompt` stays
`true` for the rest of the process lifetime. -/
theorem c9_has_seed_prompt_monotone (jp : JsonParsers) :
    (∀ (s : AgentState) (text : String) (now : Nat), jsTrim text ≠ "" →
      (enqueueUserMessage s text now).hasInitialPrompt = true ∧
      (getAgentState (enqueueUserMessage s text now)).2.2 = true) ∧
    (∀ (ops : List AgentOp) (s : AgentState), s.hasInitialPrompt = true →
      (ops.foldl (applyOp jp) s).hasInitialPrompt = true) := by
  constructor
  · intro s text now h
    constructor
    · simp [enqueueUserMessage, h]
    · simp [getAgentState, enqueueUserMessage, h]
  · intro ops s h
    refine foldl_preserve _ (fun st : AgentState => st.hasInitialPrompt = true) _ _ ?_ h
    intro st op _ hst
    cases op with
    | enqueue text now =>
      unfold applyOp enqueueUserMessage
      dsimp only
      split
      · exact hst
      · simp
    | interrupt now => simp [applyOp, hst]
    | sdk msg now => simp [applyOp, hst]
    | runError errorMessage now => simp [applyOp, hst]
    | runFinally => simp [applyOp, hst]

theorem c9_has_seed_prompt_monotone_witness :
    ((enqueueUserMessage {} "hi" 0).hasInitialPrompt = true ∧
      (getAgentState (enqueueUserMessage {} "hi" 0)).2.2 = true) ∧
    (([AgentOp.interrupt 3, AgentOp.runFinally].foldl (applyOp jpTrivial)
      (enqueueUserMessage {} "hi" 0)).hasInitialPrompt = true) :=
  ⟨(c9_has_seed_prompt_monotone jpTrivial).1 {} "hi" 0 (by decide),
    (c9_has_seed_prompt_monotone jpTrivial).2 [AgentOp.interrupt 3, AgentOp.runFinally]
      (enqueueUserMessage {} "hi" 0)
      ((c9_has_seed_prompt_monotone jpTrivial).1 {} "hi" 0 (by decide)).1⟩

/-! ## Frame lemmas: which handlers write `childToolToParent`

Only `handleSubagentToolUseStart` and `ensureSubagentToolPlaceholder` write
the child-to-parent map; everything else leaves it untouched. -/

@[simp]
theorem ctp_pushBroadcast (s : AgentState) (b : Broadcast) :
    (pushBroadcast s b).childToolToParent = s.childToolToParent := rfl

@[simp]
theorem ctp_setSessionState (s : AgentState) (st : SessionState) :
    (setSessionState s st).childToolToParent = s.childToolToParent := by
  unfold setSessionState pushBroadcast
  split <;> rfl

@[simp]
theorem ctp_ensureAssistantMessage (s : AgentState) (now : Nat) :
    (ensureAssistantMessage s now).childToolToParent = s.childToolToParent := by
  unfold ensureAssistantMessage
  split <;> rfl

@[simp]
theorem ctp_modifyLastContent (s : AgentState) (f : Content → Content) :
    (modifyLastContent s f).childToolToParent = s.childToolToParent := rfl

@[simp]
theorem ctp_appendTextChunk (s : AgentState) (now : Nat) (chunk : String) :
    (appendTextChunk s now chunk).childToolToParent = s.childToolToParent := by
  unfold appendTextChunk
  simp

@[simp]
theorem ctp_handleThinkingChunk (s : AgentState) (now index : Nat) (delta : String) :
    (handleThinkingChunk s now index delta).childToolToParent = s.childToolToParent := by
  unfold handleThinkingChunk
  simp

@[simp]
theorem ctp_handleThinkingStart (s : AgentState) (now index : Nat) :
    (handleThinkingStart s now index).childToolToParent = s.childToolToParent := by
  unfold handleThinkingStart
  simp

@[simp]
theorem ctp_handleToolUseStart (s : AgentState) (now : Nat) (id name input : String)
    (streamIndex : Nat) :
    (handleToolUseStart s now id name input streamIndex).childToolToParent
      = s.childToolToParent := by
  unfold handleToolUseStart
  simp

@[simp]
theorem ctp_handleToolInputDelta (jp : JsonParsers) (s : AgentState) (now index : Nat)
    (toolId delta : String) :
    (handleToolInputDelta jp s now index toolId delta).childToolToParent
      = s.childToolToParent := by
  unfold handleToolInputDelta
  simp

@[simp]
theorem ctp_handleContentBlockStop (jp : JsonParsers) (s : AgentState) (now index : Nat)
    (toolId : Option String) :
    (handleContentBlockStop jp s now index toolId).childToolToParent
      = s.childToolToParent := by
  unfold handleContentBlockStop
  simp

@[simp]
theorem ctp_handleSubagentToolInputDelta (jp : JsonParsers) (s : AgentState)
    (p toolId delta : String) :
    (handleSubagentToolInputDelta jp s p toolId delta).childToolToParent
      = s.childToolToParent := by
  unfold handleSubagentToolInputDelta
  repeat' split
  all_goals rfl

@[simp]
theorem ctp_finalizeSubagentToolInput (jp : JsonParsers) (s : AgentState)
    (p toolId : String) :
    (finalizeSubagentToolInput jp s p toolId).childToolToParent
      = s.childToolToParent := by
  unfold finalizeSubagentToolInput
  repeat' split
  all_goals rfl

@[simp]
theorem ctp_updateSubagentCall (s : AgentState) (p toolUseId : String)
    (f : SubagentToolCall → SubagentToolCall) :
    (updateSubagentCall s p toolUseId f).childToolToParent = s.childToolToParent := rfl

@[simp]
theorem ctp_handleSubagentToolResultStart (s : AgentState) (toolUseId content : String)
    (isError : Bool) :
    (handleSubagentToolResultStart s toolUseId content isError).2.childToolToParent
      = s.childToolToParent := by
  unfold handleSubagentToolResultStart
  split <;> rfl

@[simp]
theorem ctp_handleSubagentToolResultComplete (s : AgentState) (toolUseId content : String)
    (isError : Option Bool) :
    (handleSubagentToolResultComplete s toolUseId content isError).2.childToolToParent
      = s.childToolToParent := by
  unfold handleSubagentToolResultComplete
  split <;> rfl

@[simp]
theorem ctp_appendSubagentToolResultDelta (s : AgentState) (toolUseId delta : String) :
    (appendSubagentToolResultDelta s toolUseId delta).2.childToolToParent
      = s.childToolToParent := by
  unfold appendSubagentToolResultDelta
  split <;> rfl

@[simp]
theorem ctp_finalizeSubagentToolResult (s : AgentState) (toolUseId : String) :
    (finalizeSubagentToolResult s toolUseId).2.childToolToParent
      = s.childToolToParent := by
  unfold finalizeSubagentToolResult
  split <;> rfl

@[simp]
theorem ctp_setToolResult (s : AgentState) (toolUseId content : String)
    (isError : Option Bool) :
    (setToolResult s toolUseId content isError).childToolToParent
      = s.childToolToParent := by
  unfold setToolResult
  split <;> rfl

@[simp]
theorem ctp_appendToolResultContent (s : AgentState) (toolUseId content : String)
    (isError : Option Bool) :
    (appendToolResultContent s toolUseId content isError).2.childToolToParent
      = s.childToolToParent := by
  unfold appendToolResultContent
  simp

@[simp]
theorem ctp_appendToolResultDelta (s : AgentState) (toolUseId delta : String) :
    (appendToolResultDelta s toolUseId delta).childToolToParent
      = s.childToolToParent := by
  unfold appendToolResultDelta
  dsimp only
  split
  · simp
  · split <;> simp

@[simp]
theorem ctp_handleToolResultStart (s : AgentState) (toolUseId content : String)
    (isError : Bool) :
    (handleToolResultStart s toolUseId content isError).childToolToParent
      = s.childToolToParent := by
  unfold handleToolResultStart
  dsimp only
  split <;> simp

@[simp]
theorem ctp_handleToolResultComplete (s : AgentState) (toolUseId content : String)
    (isError : Option Bool) :
    (handleToolResultComplete s toolUseId content isError).childToolToParent
      = s.childToolToParent := by
  unfold handleToolResultComplete
  dsimp only
  split <;> simp

@[simp]
theorem ctp_handleMessageComplete (s : AgentState) :
    (handleMessageComplete s).childToolToParent = s.childToolToParent := by
  unfold handleMessageComplete
  simp

@[simp]
theorem ctp_handleMessageStopped (s : AgentState) (now : Nat) :
    (handleMessageStopped s now).childToolToParent = s.childToolToParent := by
  unfold handleMessageStopped
  dsimp only
  cases hm : s.messages.getLast? with
  | none => simp [hm]
  | some m => cases hr : m.role <;> cases hc : m.content <;> simp [hm, hr, hc]

@[simp]
theorem ctp_processTextDelta (s : AgentState) (parent : Option String) (text : String)
    (now : Nat) :
    (processTextDelta s parent text now).childToolToParent = s.childToolToParent := by
  unfold processTextDelta
  dsimp only
  repeat' split
  all_goals simp

@[simp]
theorem ctp_processInputJsonDelta (jp : JsonParsers) (s : AgentState)
    (parent : Option String) (index : Nat) (partialJson : String) (now : Nat) :
    (processInputJsonDelta jp s parent index partialJson now).childToolToParent
      = s.childToolToParent := by
  unfold processInputJsonDelta
  dsimp only
  repeat' split
  all_goals simp

@[simp]
theorem ctp_processContentBlockStop (jp : JsonParsers) (s : AgentState)
    (parent : Option String) (index : Nat) (now : Nat) :
    (processContentBlockStop jp s parent index now).childToolToParent
      = s.childToolToParent := by
  unfold processContentBlockStop
  dsimp only
  repeat' split
  all_goals simp

@[simp]
theorem ctp_processAssistantParentText (s : AgentState) (parent : Option String)
    (items : List AssistantItem) :
    (processAssistantParentText s parent items).childToolToParent
      = s.childToolToParent := by
  unfold processAssistantParentText
  dsimp only
  repeat' split
  all_goals simp

/-! ## C7: stability of the child-to-parent association -/

theorem ctpL_handleSubagentToolUseStart (s : AgentState) (p id name input : String)
    (si : Option Nat) (x q : String) (h : lookupKey s.childToolToParent x = some q)
    (hcond : id ≠ x ∨ p = q) :
    lookupKey (handleSubagentToolUseStart s p id name input si).childToolToParent x
      = some q := by
  unfold handleSubagentToolUseStart
  split
  · exact h
  · dsimp only
    split
    all_goals
      by_cases hid : id = x
      · rcases hcond with hne | hpq
        · exact absurd hid hne
        · subst hid
          subst hpq
          exact lookupKey_setKey_self ..
      · rw [lookupKey_setKey_ne _ _ _ _ (fun hc => hid hc.symm)]
        exact h

theorem ctpL_ensureSubagentToolPlaceholder (s : AgentState) (p toolUseId x q : String)
    (h : lookupKey s.childToolToParent x = some q) (hne : toolUseId ≠ x) :
    lookupKey (ensureSubagentToolPlaceholder s p toolUseId).childToolToParent x
      = some q := by
  unfold ensureSubagentToolPlaceholder
  split
  · exact h
  · split
    · exact h
    · dsimp only
      rw [lookupKey_setKey_ne _ _ _ _ (fun hc => hne hc.symm)]
      exact h

theorem ctpL_processUserToolResult (s : AgentState) (par toolUseId : String) (cval : UVal)
    (x q : String) (h : lookupKey s.childToolToParent x = some q) :
    lookupKey (processUserToolResult s par toolUseId cval).childToolToParent x
      = some q := by
  unfold processUserToolResult
  dsimp only
  simp only [ctp_handleToolResultComplete, ctp_pushBroadcast]
  split
  · next hnone =>
      by_cases hx : toolUseId = x
      · subst hx
        rw [h] at hnone
        simp at hnone
      · exact ctpL_ensureSubagentToolPlaceholder _ _ _ _ _ h hx
  · exact h

theorem ctpL_processAssistantToolResult (s : AgentState) (parent : Option String)
    (toolUseId : String) (cval : AVal) (isError : Option Bool) (x q : String)
    (h : lookupKey s.childToolToParent x = some q) :
    lookupKey (processAssistantToolResult s parent toolUseId cval
      isError).childToolToParent x = some q := by
  unfold processAssistantToolResult
  dsimp only
  simp only [ctp_handleToolResultComplete]
  split
  · simp only [ctp_pushBroadcast]
    split
    · next hnone =>
        by_cases hx : toolUseId = x
        · subst hx
          rw [h] at hnone
          simp at hnone
        · exact ctpL_ensureSubagentToolPlaceholder _ _ _ _ _ h hx
    · exact h
  · simpa using h

theorem ctpL_processContentBlockStart (jp : JsonParsers) (s : AgentState)
    (parent : Option String) (index : Nat) (block : RawBlock) (now : Nat) (x q : String)
    (h : lookupKey s.childToolToParent x = some q)
    (hcond : ∀ id name input, block = RawBlock.toolUse id name input →
      ∀ p, parent = some p → (id ≠ x ∨ p = q)) :
    lookupKey (processContentBlockStart jp s parent index block now).childToolToParent x
      = some q := by
  unfold processContentBlockStart
  cases block with
  | thinking => simpa using h
  | toolUse id name input =>
    dsimp only
    cases parent with
    | some p =>
      exact ctpL_handleSubagentToolUseStart _ _ _ _ _ _ _ _ (by simpa using h)
        (hcond id name input rfl p rfl)
    | none => simpa using h
  | toolResult tuid content isError =>
    dsimp only
    split
    · exact h
    · simp only [ctp_handleToolResultStart]
      split
      · simp only [ctp_pushBroadcast]
        split
        · next hnone =>
            by_cases hx : tuid = x
            · subst hx
              rw [h] at hnone
              simp at hnone
            · exact ctpL_ensureSubagentToolPlaceholder _ _ _ _ _ h hx
        · exact h
      · exact h
  | otherBlock => exact h

theorem ctpL_processUserMsg (s : AgentState) (parent : Option String)
    (items : List UserItem) (x q : String)
    (h : lookupKey s.childToolToParent x = some q) :
    lookupKey (processUserMsg s parent items).childToolToParent x = some q := by
  unfold processUserMsg
  cases parent with
  | none => exact h
  | some par =>
    dsimp only
    refine foldl_preserve _
      (fun st : AgentState => lookupKey st.childToolToParent x = some q) _ _ ?_ h
    intro st it _ hst
    cases it with
    | toolResultItem tuid cval => exact ctpL_processUserToolResult _ _ _ _ _ _ hst
    | otherItem => exact hst

theorem ctpL_processAssistantPhase1 (s : AgentState) (parent : Option String)
    (items : List AssistantItem) (x q : String)
    (h : lookupKey s.childToolToParent x = some q)
    (hcond : ∀ par, parent = some par →
      (par = q ∨ ∀ name input, AssistantItem.toolUseItem x name input ∉ items)) :
    lookupKey (processAssistantPhase1 s parent items).childToolToParent x = some q := by
  unfold processAssistantPhase1
  cases parent with
  | none => exact h
  | some par =>
    dsimp only
    refine foldl_preserve _
      (fun st : AgentState => lookupKey st.childToolToParent x = some q) _ _ ?_ h
    intro st it hmem hst
    cases it with
    | toolUseItem id name input =>
      refine ctpL_handleSubagentToolUseStart _ _ _ _ _ _ _ _ (by simpa using hst) ?_
      by_cases hid : id = x
      · subst hid
        rcases hcond par rfl with hpq | hnotin
        · exact Or.inr hpq
        · exact absurd hmem (hnotin name input)
      · exact Or.inl hid
    | strItem v => exact hst
    | textItem v => exact hst
    | thinkingItem v => exact hst
    | toolResultItem a b c => exact hst
    | otherItem => exact hst

theorem ctpL_processAssistantPhase3 (s : AgentState) (parent : Option String)
    (items : List AssistantItem) (x q : String)
    (h : lookupKey s.childToolToParent x = some q) :
    lookupKey (processAssistantPhase3 s parent items).childToolToParent x = some q := by
  unfold processAssistantPhase3
  refine foldl_preserve _
    (fun st : AgentState => lookupKey st.childToolToParent x = some q) _ _ ?_ h
  intro st it _ hst
  cases it with
  | toolResultItem tuid cval isError =>
    exact ctpL_processAssistantToolResult _ _ _ _ _ _ _ hst
  | strItem v => exact hst
  | textItem v => exact hst
  | thinkingItem v => exact hst
  | toolUseItem a b c => exact hst
  | otherItem => exact hst

/-- A later event explicitly re-declares child `x` under a parent other
than `p`: a subagent tool-use content block, or an assistant-frame
tool-use item, naming `x` in a stream whose parent id differs from `p`. -/
def redeclaresChild (msg : SdkMessage) (x p : String) : Prop :=
  match msg with
  | .streamEvent (some q) (.contentBlockStart _ (.toolUse id _ _)) => id = x ∧ q ≠ p
  | .assistantMsg (some q) items =>
    q ≠ p ∧ ∃ name input, AssistantItem.toolUseItem x name input ∈ items
  | _ => False

theorem ctpL_processSdkMessage (jp : JsonParsers) (s : AgentState) (msg : SdkMessage)
    (now : Nat) (x q : String) (h : lookupKey s.childToolToParent x = some q)
    (hnr : ¬ redeclaresChild msg x q) :
    lookupKey (processSdkMessage jp s msg now).childToolToParent x = some q := by
  unfold processSdkMessage
  split
  · exact h
  · cases msg with
    | streamEvent parent ev =>
      cases ev with
      | contentBlockDelta index d => cases d <;> simp [h]
      | contentBlockStart index b =>
        refine ctpL_processContentBlockStart jp s parent index b now x q h ?_
        intro id name input hb p hp
        subst hb
        subst hp
        by_cases hid : id = x
        · refine Or.inr ?_
          by_contra hpq
          exact hnr ⟨hid, hpq⟩
        · exact Or.inl hid
      | contentBlockStop index => simp [h]
    | userMsg parent items => exact ctpL_processUserMsg _ _ _ _ _ h
    | assistantMsg parent items =>
      have h1 : lookupKey (processAssistantPhase1 s parent items).childToolToParent x
          = some q := by
        refine ctpL_processAssistantPhase1 s parent items x q h ?_
        intro par hp
        subst hp
        by_cases hpq : par = q
        · exact Or.inl hpq
        · refine Or.inr ?_
          intro name input hmem
          exact hnr ⟨hpq, name, input, hmem⟩
      have h2 : lookupKey (processAssistantParentText (processAssistantPhase1 s parent
          items) parent items).childToolToParent x = some q := by
        simpa using h1
      exact ctpL_processAssistantPhase3 _ _ _ _ _ h2
    | resultMsg => simp [h]

/-- C7 (amended): once child id `x` is associated to parent `p`, every
later runtime event that does not explicitly re-declare `x` under a
different parent keeps the association, and routing resolves `x` to `p`
regardless of the event's own parent id. -/
theorem c7_child_parent_stable (jp : JsonParsers) (msgs : List SdkMessage) (now : Nat)
    (s : AgentState) (x p : String)
    (h : lookupKey s.childToolToParent x = some p)
    (hnr : ∀ m ∈ msgs, ¬ redeclaresChild m x p) :
    lookupKey ((msgs.foldl (fun st m => processSdkMessage jp st m now)
        s).childToolToParent) x = some p ∧
    ∀ eventParent,
      resolveParentFor (msgs.foldl (fun st m => processSdkMessage jp st m now) s) x
        eventParent = some p := by
  have hmain : lookupKey ((msgs.foldl (fun st m => processSdkMessage jp st m now)
      s).childToolToParent) x = some p := by
    refine foldl_preserve _
      (fun st : AgentState => lookupKey st.childToolToParent x = some p) _ _ ?_ h
    intro st m hm hst
    exact ctpL_processSdkMessage jp st m now x p hst (hnr m hm)
  refine ⟨hmain, fun eventParent => ?_⟩
  unfold resolveParentFor
  rw [hmain]

/-! ## C6: placeholder creation and delta accumulation for unknown ids -/

/-- The result recorded on the subagent call `x` nested under parent tool
`p`, as the transcript stores it. -/
def subagentResultAt (s : AgentState) (p x : String) : Option String :=
  match findToolBlockById s.messages p with
  | some t =>
    match (t.subagentCalls.getD []).find? (fun call => call.id == x) with
    | some subCall => subCall.result
    | none => none
  | none => none

theorem isToolBlockWithId_mapTool (tuid : String) (f : ToolUseState → ToolUseState)
    (hf : ∀ t, (f t).id = t.id) (b : ContentBlock)
    (hb : isToolBlockWithId tuid b = true) :
    isToolBlockWithId tuid { b with tool := b.tool.map f } = true := by
  unfold isToolBlockWithId at *
  cases ht : b.tool with
  | none => rw [ht] at hb; simp at hb
  | some t =>
    rw [ht] at hb
    simp only [Bool.and_eq_true, beq_iff_eq] at hb
    simp only [ht, Option.map_some']
    simp [hb.1, hf t, hb.2]

theorem find?_append_of_none {α : Type} (p : α → Bool) (l1 l2 : List α)
    (h : l1.find? p = none) : (l1 ++ l2).find? p = l2.find? p := by
  induction l1 with
  | nil => simp
  | cons a rest ih =>
    rw [List.find?_cons] at h
    cases hp : p a with
    | true => rw [hp] at h; simp at h
    | false =>
      rw [hp] at h
      rw [List.cons_append, List.find?_cons, hp]
      exact ih h

theorem findRev_updateRev (tuid : String) (f : ToolUseState → ToolUseState)
    (hf : ∀ t, (f t).id = t.id) :
    ∀ L, findToolBlockByIdRev (updateToolByIdRev tuid f L) tuid
      = (findToolBlockByIdRev L tuid).map f
  | [] => rfl
  | m :: rest => by
    have ih := findRev_updateRev tuid f hf rest
    cases hr : m.role <;> cases hc : m.content
    · simp only [updateToolByIdRev, findToolBlockByIdRev, hr, hc]
      exact ih
    · simp only [updateToolByIdRev, findToolBlockByIdRev, hr, hc]
      exact ih
    · simp only [updateToolByIdRev, findToolBlockByIdRev, hr, hc]
      exact ih
    · rename_i l
      cases hfind : l.find? (isToolBlockWithId tuid) with
      | none =>
        simp only [updateToolByIdRev, findToolBlockByIdRev, hr, hc, hfind]
        exact ih
      | some b =>
        have hupd := find?_updateFirstWhere (isToolBlockWithId tuid)
          (fun bb => { bb with tool := bb.tool.map f }) l
          (fun bb hbb => isToolBlockWithId_mapTool tuid f hf bb hbb)
        rw [hfind] at hupd
        simp only [updateToolByIdRev, findToolBlockByIdRev, hr, hc, hfind, hupd,
          Option.map_some']

theorem findToolBlockById_updateToolById (msgs : List MessageWire) (tuid : String)
    (f : ToolUseState → ToolUseState) (hf : ∀ t, (f t).id = t.id) :
    findToolBlockById (updateToolById msgs tuid f) tuid
      = (findToolBlockById msgs tuid).map f := by
  unfold findToolBlockById updateToolById
  rw [List.reverse_reverse]
  exact findRev_updateRev tuid f hf msgs.reverse

/-! Frame lemmas for `shouldAbortSession` along the tool-result paths. -/

@[simp]
theorem sab_pushBroadcast (s : AgentState) (b : Broadcast) :
    (pushBroadcast s b).shouldAbortSession = s.shouldAbortSession := rfl

@[simp]
theorem sab_updateSubagentCall (s : AgentState) (p toolUseId : String)
    (f : SubagentToolCall → SubagentToolCall) :
    (updateSubagentCall s p toolUseId f).shouldAbortSession = s.shouldAbortSession := rfl

@[simp]
theorem sab_ensureSubagentToolPlaceholder (s : AgentState) (p toolUseId : String) :
    (ensureSubagentToolPlaceholder s p toolUseId).shouldAbortSession
      = s.shouldAbortSession := by
  unfold ensureSubagentToolPlaceholder
  split
  · rfl
  · split <;> rfl

@[simp]
theorem sab_handleSubagentToolResultStart (s : AgentState) (toolUseId content : String)
    (isError : Bool) :
    (handleSubagentToolResultStart s toolUseId content isError).2.shouldAbortSession
      = s.shouldAbortSession := by
  unfold handleSubagentToolResultStart
  split <;> rfl

@[simp]
theorem sab_appendSubagentToolResultDelta (s : AgentState) (toolUseId delta : String) :
    (appendSubagentToolResultDelta s toolUseId delta).2.shouldAbortSession
      = s.shouldAbortSession := by
  unfold appendSubagentToolResultDelta
  split <;> rfl

@[simp]
theorem sab_setToolResult (s : AgentState) (toolUseId content : String)
    (isError : Option Bool) :
    (setToolResult s toolUseId content isError).shouldAbortSession
      = s.shouldAbortSession := by
  unfold setToolResult
  split <;> rfl

@[simp]
theorem sab_appendToolResultDelta (s : AgentState) (toolUseId delta : String) :
    (appendToolResultDelta s toolUseId delta).shouldAbortSession
      = s.shouldAbortSession := by
  unfold appendToolResultDelta
  dsimp only
  split
  · simp
  · split <;> simp

@[simp]
theorem sab_handleToolResultStart (s : AgentState) (toolUseId content : String)
    (isError : Bool) :
    (handleToolResultStart s toolUseId content isError).shouldAbortSession
      = s.shouldAbortSession := by
  unfold handleToolResultStart
  dsimp only
  split <;> simp

@[simp]
theorem sab_processTextDelta (s : AgentState) (parent : Option String) (text : String)
    (now : Nat) :
    (processTextDelta s parent text now).shouldAbortSession = s.shouldAbortSession := by
  unfold processTextDelta
  dsimp only
  repeat' split
  all_goals simp [appendTextChunk, ensureAssistantMessage, modifyLastContent]
  all_goals split <;> rfl

theorem resolveSubagentCall_eq (s : AgentState) (x p : String) (pt : ToolUseState)
    (calls : List SubagentToolCall) (sc : SubagentToolCall)
    (hmap : lookupKey s.childToolToParent x = some p)
    (hfp : findToolBlockById s.messages p = some pt)
    (hcalls : pt.subagentCalls = some calls)
    (hsc : calls.find? (fun call => call.id == x) = some sc) :
    resolveSubagentCall s x = some (p, pt, sc) := by
  unfold resolveSubagentCall
  simp only [hmap, hfp, hcalls, hsc]

theorem subagentResultAt_updateSubagentCall (s : AgentState) (p x : String)
    (g : SubagentToolCall → SubagentToolCall) (hg : ∀ call, (g call).id = call.id)
    (pt : ToolUseState) (hfp : findToolBlockById s.messages p = some pt)
    (sc : SubagentToolCall)
    (hsc : (pt.subagentCalls.getD []).find? (fun call => call.id == x) = some sc) :
    subagentResultAt (updateSubagentCall s p x g) p x = (g sc).result := by
  unfold updateSubagentCall subagentResultAt
  dsimp only
  rw [findToolBlockById_updateToolById s.messages p
    (fun t => { t with
      subagentCalls :=
        some (updateFirstWhere (fun call => call.id == x) g (t.subagentCalls.getD [])) })
    (fun t => rfl)]
  have hupd := find?_updateFirstWhere (fun call => call.id == x) g
    (pt.subagentCalls.getD []) (fun call hcall => by simpa [hg call] using hcall)
  rw [hsc] at hupd
  simp only [hfp, Option.map_some', Option.getD_some, hupd]

theorem handleSubagentToolResultStart_of_resolve (s : AgentState) (x content : String)
    (isError : Bool) (p : String) (pt : ToolUseState) (sc : SubagentToolCall)
    (hres : resolveSubagentCall s x = some (p, pt, sc)) :
    handleSubagentToolResultStart s x content isError
      = (true, updateSubagentCall s p x (fun call =>
          { call with
              result := some content, isError := some isError, isLoading := some true })) := by
  unfold handleSubagentToolResultStart
  rw [hres]

theorem appendSubagentToolResultDelta_of_resolve (s : AgentState) (x delta : String)
    (p : String) (pt : ToolUseState) (sc : SubagentToolCall)
    (hres : resolveSubagentCall s x = some (p, pt, sc)) :
    appendSubagentToolResultDelta s x delta
      = (true, updateSubagentCall s p x (fun call =>
          { call with
              result := some (call.result.getD "" ++ delta), isLoading := some true })) := by
  unfold appendSubagentToolResultDelta
  rw [hres]

/-- Processing one tool-result-delta (a parented text delta) for a child id
whose placeholder already exists appends the delta to its result. -/
theorem c6_delta_step (jp : JsonParsers) (st : AgentState) (x p d r : String) (now : Nat)
    (habort : st.shouldAbortSession = false)
    (hmap : lookupKey st.childToolToParent x = some p)
    (hres : subagentResultAt st p x = some r) :
    (processSdkMessage jp st (.streamEvent (some x)
      (.contentBlockDelta 0 (.textDelta d))) now).shouldAbortSession = false ∧
    lookupKey (processSdkMessage jp st (.streamEvent (some x)
      (.contentBlockDelta 0 (.textDelta d))) now).childToolToParent x = some p ∧
    subagentResultAt (processSdkMessage jp st (.streamEvent (some x)
      (.contentBlockDelta 0 (.textDelta d))) now) p x = some (r ++ d) := by
  obtain ⟨pt, hfp, sc, hsc, hscr⟩ : ∃ pt, findToolBlockById st.messages p = some pt ∧
      ∃ sc, (pt.subagentCalls.getD []).find? (fun call => call.id == x) = some sc ∧
        sc.result = some r := by
    unfold subagentResultAt at hres
    cases hfp : findToolBlockById st.messages p with
    | none => simp [hfp] at hres
    | some pt =>
      simp only [hfp] at hres
      cases hsc : (pt.subagentCalls.getD []).find? (fun call => call.id == x) with
      | none => simp [hsc] at hres
      | some sc =>
        simp only [hsc] at hres
        exact ⟨pt, rfl, sc, hsc, hres⟩
  obtain ⟨calls, hcalls⟩ : ∃ calls, pt.subagentCalls = some calls := by
    cases hcs : pt.subagentCalls with
    | none => rw [hcs] at hsc; simp at hsc
    | some calls => exact ⟨calls, rfl⟩
  have hstep : processSdkMessage jp st (.streamEvent (some x)
      (.contentBlockDelta 0 (.textDelta d))) now = processTextDelta st (some x) d now := by
    unfold processSdkMessage
    rw [if_neg (by rw [habort]; simp)]
  have htd : processTextDelta st (some x) d now
      = appendToolResultDelta (pushBroadcast st (.subagentToolResultDelta p x d)) x d := by
    unfold processTextDelta
    simp only [hmap]
  have hresolve : resolveSubagentCall
      (pushBroadcast st (.subagentToolResultDelta p x d)) x = some (p, pt, sc) := by
    refine resolveSubagentCall_eq _ _ _ _ calls _ hmap hfp hcalls ?_
    rw [hcalls] at hsc
    simpa using hsc
  have happ := appendSubagentToolResultDelta_of_resolve
    (pushBroadcast st (.subagentToolResultDelta p x d)) x d p pt sc hresolve
  have hatrd : appendToolResultDelta (pushBroadcast st (.subagentToolResultDelta p x d)) x d
      = updateSubagentCall (pushBroadcast st (.subagentToolResultDelta p x d)) p x
          (fun call =>
            { call with
                result := some (call.result.getD "" ++ d), isLoading := some true }) := by
    unfold appendToolResultDelta
    rw [happ]
    simp
  rw [hstep, htd, hatrd]
  refine ⟨by simpa using habort, by simpa using hmap, ?_⟩
  rw [subagentResultAt_updateSubagentCall
    (pushBroadcast st (Broadcast.subagentToolResultDelta p x d)) p x
    (fun call =>
      { call with result := some (call.result.getD "" ++ d), isLoading := some true })
    (fun call => rfl) pt (by exact hfp) sc (by exact hsc)]
  simp [hscr]

theorem ensureSubagentToolPlaceholder_push (s : AgentState) (p x : String)
    (pt : ToolUseState) (hparent : findToolBlockById s.messages p = some pt)
    (hnosub : (pt.subagentCalls.getD []).any (fun call => call.id == x) = false) :
    ensureSubagentToolPlaceholder s p x
      = { s with
          childToolToParent := setKey s.childToolToParent x p,
          messages := updateToolById s.messages p (fun t =>
            { t with subagentCalls := some ((t.subagentCalls.getD []) ++
                [subagentPlaceholder x]) }) } := by
  unfold ensureSubagentToolPlaceholder
  simp only [hparent]
  rw [if_neg (by simp [hnosub])]

theorem handleToolResultStart_of_resolve (s : AgentState) (x content : String)
    (isError : Bool) (p : String) (pt : ToolUseState) (sc : SubagentToolCall)
    (hres : resolveSubagentCall s x = some (p, pt, sc)) :
    handleToolResultStart s x content isError
      = updateSubagentCall s p x (fun call =>
          { call with
              result := some content, isError := some isError, isLoading := some true }) := by
  unfold handleToolResultStart
  rw [handleSubagentToolResultStart_of_resolve s x content isError p pt sc hres]
  simp

theorem processContentBlockStart_toolResult_subagent (jp : JsonParsers) (s : AgentState)
    (p x c : String) (e : Option Bool) (idx now : Nat)
    (hmap : lookupKey s.childToolToParent x = none) (hc : ¬ c = "") :
    processContentBlockStart jp s (some p) idx
        (RawBlock.toolResult x (some (StreamVal.svstr c)) e) now
      = handleToolResultStart
          (pushBroadcast
            (ensureSubagentToolPlaceholder
              { s with toolResultIndexToId := setKey s.toolResultIndexToId idx x } p x)
            (Broadcast.subagentToolResultStart p x c (e.getD false)))
          x c (e.getD false) := by
  unfold processContentBlockStart
  dsimp only
  rw [if_neg (by exact hc)]
  unfold resolveParentFor
  simp [hmap, streamContentStr]

/-- Processing a tool-result start event for a child id that was never
started, in a stream parented to an existing tool block `p`, creates the
placeholder, learns the association, and records the content. -/
theorem c6_start_establishes (jp : JsonParsers) (s : AgentState) (p x c : String)
    (e : Option Bool) (idx now : Nat) (pt : ToolUseState)
    (habort : s.shouldAbortSession = false)
    (hmap : lookupKey s.childToolToParent x = none)
    (hparent : findToolBlockById s.messages p = some pt)
    (hnosub : (pt.subagentCalls.getD []).any (fun call => call.id == x) = false)
    (hc : ¬ c = "") :
    (processSdkMessage jp s (.streamEvent (some p)
      (.contentBlockStart idx (.toolResult x (some (.svstr c)) e)))
      now).shouldAbortSession = false ∧
    lookupKey (processSdkMessage jp s (.streamEvent (some p)
      (.contentBlockStart idx (.toolResult x (some (.svstr c)) e)))
      now).childToolToParent x = some p ∧
    subagentResultAt (processSdkMessage jp s (.streamEvent (some p)
      (.contentBlockStart idx (.toolResult x (some (.svstr c)) e))) now) p x = some c := by
  have hstep : processSdkMessage jp s (.streamEvent (some p)
      (.contentBlockStart idx (.toolResult x (some (.svstr c)) e))) now
      = processContentBlockStart jp s (some p) idx
          (RawBlock.toolResult x (some (StreamVal.svstr c)) e) now := by
    unfold processSdkMessage
    rw [if_neg (by rw [habort]; simp)]
  have hens := ensureSubagentToolPlaceholder_push
    { s with toolResultIndexToId := setKey s.toolResultIndexToId idx x } p x pt
    (by exact hparent) (by exact hnosub)
  have hfindnone : (pt.subagentCalls.getD []).find? (fun call => call.id == x) = none := by
    rw [List.find?_eq_none]
    intro a ha
    simp only [List.any_eq_false] at hnosub
    exact hnosub a ha
  have hfindPh : ((pt.subagentCalls.getD []) ++ [subagentPlaceholder x]).find?
      (fun call => call.id == x) = some (subagentPlaceholder x) := by
    rw [find?_append_of_none _ _ _ hfindnone]
    simp [subagentPlaceholder]
  have hfindupd : findToolBlockById (updateToolById s.messages p (fun t =>
      { t with subagentCalls := some ((t.subagentCalls.getD []) ++
          [subagentPlaceholder x]) })) p
      = some { pt with subagentCalls := some ((pt.subagentCalls.getD []) ++
          [subagentPlaceholder x]) } := by
    rw [findToolBlockById_updateToolById s.messages p
      (fun t => { t with subagentCalls := some ((t.subagentCalls.getD []) ++
          [subagentPlaceholder x]) }) (fun t => rfl), hparent, Option.map_some']
  have hres : resolveSubagentCall
      (pushBroadcast
        (ensureSubagentToolPlaceholder
          { s with toolResultIndexToId := setKey s.toolResultIndexToId idx x } p x)
        (Broadcast.subagentToolResultStart p x c (e.getD false))) x
      = some (p,
          { pt with subagentCalls := some ((pt.subagentCalls.getD []) ++
              [subagentPlaceholder x]) },
          subagentPlaceholder x) := by
    rw [hens]
    refine resolveSubagentCall_eq _ _ _ _
      ((pt.subagentCalls.getD []) ++ [subagentPlaceholder x]) _ ?_ ?_ rfl ?_
    · exact lookupKey_setKey_self ..
    · exact hfindupd
    · exact hfindPh
  have hfinal := handleToolResultStart_of_resolve _ x c (e.getD false) p _ _ hres
  rw [hstep, processContentBlockStart_toolResult_subagent jp s p x c e idx now hmap hc,
    hfinal]
  refine ⟨?_, ?_, ?_⟩
  · simp only [sab_updateSubagentCall, sab_pushBroadcast]
    rw [hens]
    exact habort
  · simp only [ctp_updateSubagentCall, ctp_pushBroadcast]
    rw [hens]
    exact lookupKey_setKey_self ..
  · rw [subagentResultAt_updateSubagentCall
      (pushBroadcast
        (ensureSubagentToolPlaceholder
          { s with toolResultIndexToId := setKey s.toolResultIndexToId idx x } p x)
        (Broadcast.subagentToolResultStart p x c (e.getD false))) p x
      (fun call =>
        { call with
            result := some c, isError := some (e.getD false), isLoading := some true })
      (fun call => rfl)
      { pt with subagentCalls := some ((pt.subagentCalls.getD []) ++
          [subagentPlaceholder x]) }
      (by rw [hens]; exact hfindupd)
      (subagentPlaceholder x) (by simpa using hfindPh)]

theorem c6_deltas_fold (jp : JsonParsers) (deltas : List String) (st : AgentState)
    (x p r : String) (now : Nat)
    (h1 : st.shouldAbortSession = false)
    (h2 : lookupKey st.childToolToParent x = some p)
    (h3 : subagentResultAt st p x = some r) :
    (deltas.foldl (fun s2 d => processSdkMessage jp s2 (.streamEvent (some x)
      (.contentBlockDelta 0 (.textDelta d))) now) st).shouldAbortSession = false ∧
    lookupKey ((deltas.foldl (fun s2 d => processSdkMessage jp s2 (.streamEvent (some x)
      (.contentBlockDelta 0 (.textDelta d))) now) st).childToolToParent) x = some p ∧
    subagentResultAt (deltas.foldl (fun s2 d => processSdkMessage jp s2 (.streamEvent
      (some x) (.contentBlockDelta 0 (.textDelta d))) now) st) p x
      = some (r ++ concatStrings deltas) := by
  induction deltas generalizing st r with
  | nil =>
    refine ⟨h1, h2, ?_⟩
    simpa [concatStrings, String.append_empty] using h3
  | cons d rest ih =>
    obtain ⟨a1, a2, a3⟩ := c6_delta_step jp st x p d r now h1 h2 h3
    have hrec := ih _ _ a1 a2 a3
    simpa [concatStrings, String.append_assoc] using hrec

/-- C6 (amended): a tool-result **start** event for a child tool id that
was never started, arriving in a stream parented to an existing tool
block, is handled by defensive placeholder creation: a placeholder entry
for the id is created under the parent, the association is learned, and
every subsequent tool-result-delta for that id accumulates onto the
placeholder's result in order. -/
theorem c6_unknown_tool_result_placeholder (jp : JsonParsers) (s : AgentState)
    (p x c : String) (e : Option Bool) (idx now : Nat) (deltas : List String)
    (pt : ToolUseState)
    (habort : s.shouldAbortSession = false)
    (hmap : lookupKey s.childToolToParent x = none)
    (hnostart : findToolBlockById s.messages x = none)
    (hparent : findToolBlockById s.messages p = some pt)
    (hnosub : (pt.subagentCalls.getD []).any (fun call => call.id == x) = false)
    (hc : ¬ c = "") :
    lookupKey ((deltas.foldl (fun st d => processSdkMessage jp st (.streamEvent (some x)
        (.contentBlockDelta 0 (.textDelta d))) now)
      (processSdkMessage jp s (.streamEvent (some p)
        (.contentBlockStart idx (.toolResult x (some (.svstr c)) e)))
        now)).childToolToParent) x = some p ∧
    subagentResultAt (deltas.foldl (fun st d => processSdkMessage jp st (.streamEvent
        (some x) (.contentBlockDelta 0 (.textDelta d))) now)
      (processSdkMessage jp s (.streamEvent (some p)
        (.contentBlockStart idx (.toolResult x (some (.svstr c)) e))) now)) p x
      = some (c ++ concatStrings deltas) := by
  obtain ⟨a1, a2, a3⟩ :=
    c6_start_establishes jp s p x c e idx now pt habort hmap hparent hnosub hc
  obtain ⟨_, b2, b3⟩ := c6_deltas_fold jp deltas _ x p c now a1 a2 a3
  exact ⟨b2, b3⟩

/-- A top-level tool block, for concrete states. -/
def toolBlockFor (id : String) : ContentBlock :=
  { type := .tool_use
    tool := some { id := id, name := "Task", input := "{}", streamIndex := 0 } }

def c6WitnessState : AgentState :=
  { messages :=
      [{ id := 0
         role := .assistant
         content := .blocks [toolBlockFor "p1"]
         timestamp := 0 }]
    isStreamingMessage := true }

theorem c6_unknown_tool_result_placeholder_witness :
    lookupKey (((["a", "b"] : List String).foldl (fun st d => processSdkMessage jpTrivial
        st (.streamEvent (some "child-1") (.contentBlockDelta 0 (.textDelta d))) 5)
      (processSdkMessage jpTrivial c6WitnessState (.streamEvent (some "p1")
        (.contentBlockStart 2 (.toolResult "child-1" (some (.svstr "ok")) none)))
        5)).childToolToParent) "child-1" = some "p1" ∧
    subagentResultAt ((["a", "b"] : List String).foldl (fun st d => processSdkMessage
        jpTrivial st (.streamEvent (some "child-1") (.contentBlockDelta 0 (.textDelta d)))
        5)
      (processSdkMessage jpTrivial c6WitnessState (.streamEvent (some "p1")
        (.contentBlockStart 2 (.toolResult "child-1" (some (.svstr "ok")) none))) 5))
      "p1" "child-1" = some ("ok" ++ concatStrings ["a", "b"]) :=
  c6_unknown_tool_result_placeholder jpTrivial c6WitnessState "p1" "child-1" "ok" none 2 5
    ["a", "b"] { id := "p1", name := "Task", input := "{}", streamIndex := 0 }
    rfl rfl rfl rfl rfl (by decide)

/-- Does any tool block of the transcript hold a subagent entry with the
given id? -/
def hasSubagentEntry (msgs : List MessageWire) (id : String) : Bool :=
  msgs.any (fun m =>
    match m.content with
    | .blocks l => l.any (fun b =>
        match b.tool with
        | some t => (t.subagentCalls.getD []).any (fun call => call.id == id)
        | none => false)
    | .str _ => false)

/-- Counterexample to C6 as stated: a tool-result-**delta** for a tool id
that was never started, with no learned parent, is silently dropped — no
placeholder entry is created anywhere and the transcript is unchanged, so
the delta does not accumulate. -/
theorem c6_delta_no_placeholder_counterexample :
    (processSdkMessage jpTrivial c6WitnessState
      (.streamEvent (some "child-1") (.contentBlockDelta 0 (.textDelta "lost")))
      5).messages = c6WitnessState.messages ∧
    hasSubagentEntry (processSdkMessage jpTrivial c6WitnessState
      (.streamEvent (some "child-1") (.contentBlockDelta 0 (.textDelta "lost")))
      5).messages "child-1" = false ∧
    findToolBlockById (processSdkMessage jpTrivial c6WitnessState
      (.streamEvent (some "child-1") (.contentBlockDelta 0 (.textDelta "lost")))
      5).messages "child-1" = none := by
  decide

def c7CexState : AgentState :=
  { messages :=
      [{ id := 0
         role := .assistant
         content := .blocks [toolBlockFor "p1", toolBlockFor "p2"]
         timestamp := 0 }] }

/-- Counterexample to C7 as stated: a second subagent tool-use event that
names the same child id `x` under a different (existing) parent overwrites
the learned association, so a child id is not mapped to at most one parent
for the session lifetime. -/
theorem c7_reparent_counterexample :
    lookupKey ((processSdkMessage jpTrivial c7CexState
      (.streamEvent (some "p1") (.contentBlockStart 1 (.toolUse "x" "Bash" none)))
      0).childToolToParent) "x" = some "p1" ∧
    lookupKey ((processSdkMessage jpTrivial
      (processSdkMessage jpTrivial c7CexState
        (.streamEvent (some "p1") (.contentBlockStart 1 (.toolUse "x" "Bash" none))) 0)
      (.streamEvent (some "p2") (.contentBlockStart 2 (.toolUse "x" "Bash" none)))
      0).childToolToParent) "x" = some "p2" := by
  decide

def c7WitnessState : AgentState :=
  { childToolToParent := [("x", "p1")]
    messages :=
      [{ id := 0
         role := .assistant
         content := .blocks [toolBlockFor "p1"]
         timestamp := 0 }] }

theorem c7_child_parent_stable_witness :
    lookupKey (([SdkMessage.streamEvent (some "x")
        (.contentBlockDelta 0 (.textDelta "out"))].foldl
      (fun st m => processSdkMessage jpTrivial st m 0)
      c7WitnessState).childToolToParent) "x" = some "p1" ∧
    resolveParentFor ([SdkMessage.streamEvent (some "x")
        (.contentBlockDelta 0 (.textDelta "out"))].foldl
      (fun st m => processSdkMessage jpTrivial st m 0) c7WitnessState) "x" (some "other")
      = some "p1" :=
  ⟨(c7_child_parent_stable jpTrivial
      [SdkMessage.streamEvent (some "x") (.contentBlockDelta 0 (.textDelta "out"))] 0
      c7WitnessState "x" "p1" rfl
      (by intro m hm; rw [List.mem_singleton] at hm; subst hm; simp [redeclaresChild])).1,
    (c7_child_parent_stable jpTrivial
      [SdkMessage.streamEvent (some "x") (.contentBlockDelta 0 (.textDelta "out"))] 0
      c7WitnessState "x" "p1" rfl
      (by intro m hm; rw [List.mem_singleton] at hm; subst hm;
          simp [redeclaresChild])).2 (some "other")⟩

end ClaudeAgentUI
